import Mathlib

/-!
Verification development for the VLSV AMR mesh index (amr_mesh.cpp, reached
through src/Makefile.meteo) and the VLSV reader (src/vlsvreader2.cpp).

Machine-integer conventions used throughout the embedding:
* GlobalID is uint64_t in the source; all the values handled here stay far
  below 2^64, so it is embedded as Nat with no wrap.
* Intermediate index arithmetic in AmrMesh::getGlobalID and in the index
  manipulations of getChildren / getNeighbors / getSiblingNeighbors /
  getSiblings is uint32_t in the source; those operations are embedded with
  an explicit reduction modulo 2^32 (mul32 / add32 / u32ofInt below).
* calls to pow(double,double) and the conversions back to integers are exact
  for every quantity reachable in the theorems below (exponents at most 63,
  values below 2^53), so they are embedded as exact Nat powers.
-/

namespace Vlsv

/-- Modulus of the 32-bit unsigned arithmetic used by the index code. -/
def U32 : Nat := 2 ^ 32

/-- uint32_t multiplication: wraps modulo 2^32. -/
def mul32 (a b : Nat) : Nat := (a * b) % U32

/-- uint32_t addition: wraps modulo 2^32. -/
def add32 (a b : Nat) : Nat := (a + b) % U32

/-- Value of a uint32_t obtained from mixed int / uint32_t arithmetic
(e.g. i + i_off with i_off an int): two's complement wrap modulo 2^32. -/
def u32ofInt (x : Int) : Nat := (x % (2 ^ 32 : Int)).toNat

/-- Modelled from the spec: the reserved invalid sentinel for GlobalID
("a sentinel invalid-ID value for lookups"); the header defining
INVALID_GLOBALID is not part of the sources, the customary value is the
largest 64-bit unsigned integer. -/
def INVALID_GLOBALID : Nat := 2 ^ 64 - 1

/-- Modelled from the spec: the reserved sentinel LocalID denoting
"no local storage assigned"; the header defining INVALID_LOCALID is not in
the sources, the customary value is the largest 32-bit unsigned integer. -/
def INVALID_LOCALID : Nat := 2 ^ 32 - 1

/-- Mesh geometry parameters fixed by the AmrMesh constructor: the base grid
shape bbox[0..2] and the maximum allowed refinement level. (bbox[3..5], the
per-block cell counts, play no role in the indexed operations.) -/
structure AmrCfg where
  bbox0 : Nat
  bbox1 : Nat
  bbox2 : Nat
  refLevelMaxAllowed : Nat

namespace AmrCfg

variable (cfg : AmrCfg)

/-- N_blocks0 = bbox[0]*bbox[1]*bbox[2], computed in uint32_t. -/
def N_blocks0 : Nat := mul32 (mul32 cfg.bbox0 cfg.bbox1) cfg.bbox2

/-- Entry refLevel of the offsets table built by AmrMesh::initialize:
offsets[0] = 0, offsets[L] = offsets[L-1] + N_blocks0 * 8^(L-1). -/
def offsetAt : Nat → Nat
  | 0 => 0
  | l + 1 => offsetAt l + cfg.N_blocks0 * 8 ^ l

/-- The offsets table as the vector of length refLevelMaxAllowed+1 that
AmrMesh::initialize builds. -/
def offsets : List Nat := (List.range (cfg.refLevelMaxAllowed + 1)).map cfg.offsetAt

/-- Number of blocks along x at a refinement level (exact value). -/
def Nx (l : Nat) : Nat := cfg.bbox0 * 2 ^ l

/-- Number of blocks along y at a refinement level (exact value). -/
def Ny (l : Nat) : Nat := cfg.bbox1 * 2 ^ l

/-- Number of blocks along z at a refinement level (exact value). -/
def Nz (l : Nat) : Nat := cfg.bbox2 * 2 ^ l

/-- Per-level block count Nx*Ny*Nz, in the form the offsets use. -/
def blocksAt (l : Nat) : Nat := cfg.N_blocks0 * 8 ^ l

/-- AmrMesh::getGlobalID(refLevel,i,j,k):
offsets[refLevel] + k*bbox[1]*bbox[0]*multiplier*multiplier
                  + j*bbox[0]*multiplier + i,
where multiplier = pow(2,refLevel) truncated to uint32_t and the products
are uint32_t arithmetic (wrapping); the additions are uint64_t and cannot
wrap for any value reachable here. The arguments are uint32_t, hence the
entry reductions. -/
def getGlobalID (refLevel i j k : Nat) : Nat :=
  let m : Nat := 2 ^ refLevel % U32
  let i' := i % U32
  let j' := j % U32
  let k' := k % U32
  cfg.offsetAt refLevel
    + mul32 (mul32 (mul32 (mul32 k' cfg.bbox1) cfg.bbox0) m) m
    + mul32 (mul32 j' cfg.bbox0) m
    + i'

/-- Index (number of elements before the returned iterator) of
std::upper_bound on a sorted list: first position whose element exceeds v. -/
def ubIdx : List Nat → Nat → Nat
  | [], _ => 0
  | x :: xs, v => if v < x then 0 else ubIdx xs v + 1

/-- AmrMesh::getIndices: refLevel from upper_bound over the offsets table,
then decomposition of the remainder by uint64_t division; the results are
stored through uint32_t references, hence the reductions. -/
def getIndices (globalID : Nat) : Nat × Nat × Nat × Nat :=
  let refLevel := ubIdx cfg.offsets globalID - 1
  let cellOffset := cfg.offsetAt refLevel
  let m : Nat := 2 ^ refLevel
  let nx := cfg.bbox0 * m
  let ny := cfg.bbox1 * m
  let index := globalID - cellOffset
  let k := index / (ny * nx) % U32
  let index2 := index - k * (ny * nx)
  let j := index2 / nx % U32
  let i := (index2 - j * nx) % U32
  (refLevel, i, j, k)

/-- Refinement level of a block as computed by getIndices. -/
def levelOf (globalID : Nat) : Nat := (cfg.getIndices globalID).1

/-- Well-formedness of the mesh parameters: nonempty base grid and the block
count of the deepest level below 2^32, so that none of the uint32_t products
in getGlobalID can wrap and the offsets stay exact. -/
def Ok : Prop :=
  0 < cfg.bbox0 ∧ 0 < cfg.bbox1 ∧ 0 < cfg.bbox2 ∧
    cfg.bbox0 * cfg.bbox1 * cfg.bbox2 * 8 ^ cfg.refLevelMaxAllowed < U32

instance : Decidable cfg.Ok := by
  unfold Ok; infer_instance

/-- The linear intra-level index of an index triple. -/
def linIdx (l i j k : Nat) : Nat := k * (cfg.Ny l * cfg.Nx l) + j * cfg.Nx l + i

end AmrCfg

section Addressing

variable (cfg : AmrCfg)

theorem U32_pos : 0 < U32 := by decide

theorem two_pow_pos (l : Nat) : 0 < 2 ^ l := Nat.pos_pow_of_pos _ (by decide)

theorem N_blocks0_exact (h : cfg.Ok) :
    cfg.N_blocks0 = cfg.bbox0 * cfg.bbox1 * cfg.bbox2 := by
  obtain ⟨h0, h1, h2, hN⟩ := h
  have hb : cfg.bbox0 * cfg.bbox1 * cfg.bbox2 < U32 := by
    have h8 : 0 < 8 ^ cfg.refLevelMaxAllowed := Nat.pos_pow_of_pos _ (by decide)
    calc cfg.bbox0 * cfg.bbox1 * cfg.bbox2
        ≤ cfg.bbox0 * cfg.bbox1 * cfg.bbox2 * 8 ^ cfg.refLevelMaxAllowed :=
          Nat.le_mul_of_pos_right _ h8
      _ < U32 := hN
  have hb01 : cfg.bbox0 * cfg.bbox1 < U32 := by
    have : cfg.bbox0 * cfg.bbox1 ≤ cfg.bbox0 * cfg.bbox1 * cfg.bbox2 :=
      Nat.le_mul_of_pos_right _ h2
    omega
  unfold AmrCfg.N_blocks0 mul32
  rw [Nat.mod_eq_of_lt hb01, Nat.mod_eq_of_lt hb]

theorem N_blocks0_pos (h : cfg.Ok) : 0 < cfg.N_blocks0 := by
  rw [N_blocks0_exact cfg h]
  exact Nat.mul_pos (Nat.mul_pos h.1 h.2.1) h.2.2.1

theorem Nx_pos (h : cfg.Ok) (l : Nat) : 0 < cfg.Nx l :=
  Nat.mul_pos h.1 (two_pow_pos l)

theorem Ny_pos (h : cfg.Ok) (l : Nat) : 0 < cfg.Ny l :=
  Nat.mul_pos h.2.1 (two_pow_pos l)

theorem Nz_pos (h : cfg.Ok) (l : Nat) : 0 < cfg.Nz l :=
  Nat.mul_pos h.2.2.1 (two_pow_pos l)

theorem blocksAt_lt (h : cfg.Ok) {l : Nat} (hl : l ≤ cfg.refLevelMaxAllowed) :
    cfg.blocksAt l < U32 := by
  unfold AmrCfg.blocksAt
  rw [N_blocks0_exact cfg h]
  calc cfg.bbox0 * cfg.bbox1 * cfg.bbox2 * 8 ^ l
      ≤ cfg.bbox0 * cfg.bbox1 * cfg.bbox2 * 8 ^ cfg.refLevelMaxAllowed :=
        Nat.mul_le_mul_left _ (Nat.pow_le_pow_right (by decide) hl)
    _ < U32 := h.2.2.2

theorem blocksAt_eq (h : cfg.Ok) (l : Nat) :
    cfg.blocksAt l = cfg.Nx l * cfg.Ny l * cfg.Nz l := by
  unfold AmrCfg.blocksAt AmrCfg.Nx AmrCfg.Ny AmrCfg.Nz
  rw [N_blocks0_exact cfg h]
  have h8 : (8 : Nat) ^ l = 2 ^ l * (2 ^ l * 2 ^ l) := by
    rw [show (8 : Nat) = 2 * (2 * 2) from rfl, mul_pow, mul_pow]
  rw [h8]; ring

theorem NNN_lt (h : cfg.Ok) {l : Nat} (hl : l ≤ cfg.refLevelMaxAllowed) :
    cfg.Nx l * cfg.Ny l * cfg.Nz l < U32 := by
  rw [← blocksAt_eq cfg h]
  exact blocksAt_lt cfg h hl

theorem Nx_le_NNN (h : cfg.Ok) (l : Nat) :
    cfg.Nx l ≤ cfg.Nx l * cfg.Ny l * cfg.Nz l := by
  calc cfg.Nx l ≤ cfg.Nx l * cfg.Ny l := Nat.le_mul_of_pos_right _ (Ny_pos cfg h l)
    _ ≤ cfg.Nx l * cfg.Ny l * cfg.Nz l := Nat.le_mul_of_pos_right _ (Nz_pos cfg h l)

theorem Ny_le_NNN (h : cfg.Ok) (l : Nat) :
    cfg.Ny l ≤ cfg.Nx l * cfg.Ny l * cfg.Nz l := by
  calc cfg.Ny l ≤ cfg.Ny l * (cfg.Nx l * cfg.Nz l) :=
        Nat.le_mul_of_pos_right _ (Nat.mul_pos (Nx_pos cfg h l) (Nz_pos cfg h l))
    _ = cfg.Nx l * cfg.Ny l * cfg.Nz l := by ring

theorem Nz_le_NNN (h : cfg.Ok) (l : Nat) :
    cfg.Nz l ≤ cfg.Nx l * cfg.Ny l * cfg.Nz l := by
  calc cfg.Nz l ≤ cfg.Nz l * (cfg.Nx l * cfg.Ny l) :=
        Nat.le_mul_of_pos_right _ (Nat.mul_pos (Nx_pos cfg h l) (Ny_pos cfg h l))
    _ = cfg.Nx l * cfg.Ny l * cfg.Nz l := by ring

theorem offsetAt_succ (l : Nat) :
    cfg.offsetAt (l + 1) = cfg.offsetAt l + cfg.blocksAt l := rfl

theorem offsetAt_mono (h : cfg.Ok) {a b : Nat} (hab : a < b) :
    cfg.offsetAt a < cfg.offsetAt b := by
  induction b with
  | zero => omega
  | succ n ih =>
    have hpos : 0 < cfg.blocksAt n :=
      Nat.mul_pos (N_blocks0_pos cfg h) (Nat.pos_pow_of_pos _ (by decide))
    rcases Nat.lt_succ_iff_lt_or_eq.mp hab with hlt | heq
    · have := ih hlt
      rw [offsetAt_succ]; omega
    · subst heq; rw [offsetAt_succ]; omega

/-- ubIdx on the offsets table: a value sitting in the slab of level l is
assigned upper-bound index l+1. -/
theorem ubIdx_offsets (h : cfg.Ok) {l g : Nat} (hl : l ≤ cfg.refLevelMaxAllowed)
    (hlo : cfg.offsetAt l ≤ g)
    (hhi : l = cfg.refLevelMaxAllowed ∨ g < cfg.offsetAt (l + 1)) :
    AmrCfg.ubIdx cfg.offsets g = l + 1 := by
  have key : ∀ (a n : Nat), a + n = cfg.refLevelMaxAllowed + 1 → l < a + n →
      a ≤ l →
      AmrCfg.ubIdx ((List.range' a n).map cfg.offsetAt) g = l + 1 - a := by
    intro a n
    induction n generalizing a with
    | zero => intro hsum hln hal; omega
    | succ m ih =>
      intro hsum hln hal
      rw [List.range'_succ]
      simp only [List.map_cons, AmrCfg.ubIdx]
      by_cases hga : g < cfg.offsetAt a
      · exfalso
        have hle : cfg.offsetAt a ≤ cfg.offsetAt l := by
          rcases Nat.eq_or_lt_of_le hal with heq | hlt
          · rw [heq]
          · exact le_of_lt (offsetAt_mono cfg h hlt)
        omega
      · rw [if_neg hga]
        by_cases hle : l = a
        · subst hle
          have hz : AmrCfg.ubIdx ((List.range' (l + 1) m).map cfg.offsetAt) g = 0 := by
            rcases hhi with hmax | hgl
            · have : m = 0 := by omega
              subst this; rfl
            · cases m with
              | zero => rfl
              | succ m2 =>
                rw [List.range'_succ]
                simp only [List.map_cons, AmrCfg.ubIdx]
                rw [if_pos hgl]
          rw [hz]; omega
        · have hla : a < l := by omega
          have := ih (a + 1) (by omega) (by omega) (by omega)
          rw [this]; omega
  have hmain := key 0 (cfg.refLevelMaxAllowed + 1) (by omega) (by omega) (by omega)
  unfold AmrCfg.offsets
  rw [← List.range_eq_range'] at hmain
  simpa using hmain

theorem linIdx_lt (h : cfg.Ok) {l i j k : Nat}
    (hi : i < cfg.Nx l) (hj : j < cfg.Ny l) (hk : k < cfg.Nz l) :
    cfg.linIdx l i j k < cfg.Nx l * cfg.Ny l * cfg.Nz l := by
  unfold AmrCfg.linIdx
  have hrow : j * cfg.Nx l + i < cfg.Ny l * cfg.Nx l := by
    calc j * cfg.Nx l + i < j * cfg.Nx l + cfg.Nx l := by omega
      _ = (j + 1) * cfg.Nx l := by ring
      _ ≤ cfg.Ny l * cfg.Nx l := Nat.mul_le_mul_right _ (by omega)
  calc k * (cfg.Ny l * cfg.Nx l) + j * cfg.Nx l + i
      < k * (cfg.Ny l * cfg.Nx l) + cfg.Ny l * cfg.Nx l := by omega
    _ = (k + 1) * (cfg.Ny l * cfg.Nx l) := by ring
    _ ≤ cfg.Nz l * (cfg.Ny l * cfg.Nx l) := Nat.mul_le_mul_right _ (by omega)
    _ = cfg.Nx l * cfg.Ny l * cfg.Nz l := by ring

/-- With no uint32 overflow the wrapped product chain of getGlobalID computes
the exact linear index, so getGlobalID is offset plus linear index. -/
theorem getGlobalID_eq (h : cfg.Ok) {l i j k : Nat} (hl : l ≤ cfg.refLevelMaxAllowed)
    (hi : i < cfg.Nx l) (hj : j < cfg.Ny l) (hk : k < cfg.Nz l) :
    cfg.getGlobalID l i j k = cfg.offsetAt l + cfg.linIdx l i j k := by
  have hB := NNN_lt cfg h hl
  have hNx := Nx_pos cfg h l
  have hNy := Ny_pos cfg h l
  have hNz := Nz_pos cfg h l
  have h2l := two_pow_pos l
  have hm : (2 : Nat) ^ l % U32 = 2 ^ l := by
    apply Nat.mod_eq_of_lt
    have h2 : 2 ^ l ≤ cfg.Nx l := Nat.le_mul_of_pos_left _ h.1
    have := Nx_le_NNN cfg h l
    omega
  have hiU : i % U32 = i := by
    have := Nx_le_NNN cfg h l
    exact Nat.mod_eq_of_lt (by omega)
  have hjU : j % U32 = j := by
    have := Ny_le_NNN cfg h l
    exact Nat.mod_eq_of_lt (by omega)
  have hkU : k % U32 = k := by
    have := Nz_le_NNN cfg h l
    exact Nat.mod_eq_of_lt (by omega)
  -- full product bounds
  have hkfulleq : k * cfg.bbox1 * cfg.bbox0 * 2 ^ l * 2 ^ l = k * (cfg.Ny l * cfg.Nx l) := by
    unfold AmrCfg.Ny AmrCfg.Nx; ring
  have hkfull : k * cfg.bbox1 * cfg.bbox0 * 2 ^ l * 2 ^ l < U32 := by
    rw [hkfulleq]
    have hNN : 0 < cfg.Ny l * cfg.Nx l := Nat.mul_pos hNy hNx
    have hlt : k * (cfg.Ny l * cfg.Nx l) < cfg.Nz l * (cfg.Ny l * cfg.Nx l) :=
      mul_lt_mul_of_pos_right hk hNN
    have heq3 : cfg.Nz l * (cfg.Ny l * cfg.Nx l) = cfg.Nx l * cfg.Ny l * cfg.Nz l := by ring
    omega
  have hjfulleq : j * cfg.bbox0 * 2 ^ l = j * cfg.Nx l := by
    unfold AmrCfg.Nx; ring
  have hjfull : j * cfg.bbox0 * 2 ^ l < U32 := by
    rw [hjfulleq]
    have hlt : j * cfg.Nx l < cfg.Ny l * cfg.Nx l := mul_lt_mul_of_pos_right hj hNx
    have heq3 : cfg.Ny l * cfg.Nx l ≤ cfg.Nx l * cfg.Ny l * cfg.Nz l := by
      calc cfg.Ny l * cfg.Nx l = cfg.Nx l * cfg.Ny l := by ring
        _ ≤ cfg.Nx l * cfg.Ny l * cfg.Nz l := Nat.le_mul_of_pos_right _ hNz
    omega
  -- partial product bounds by monotonicity
  have hc1 : k * cfg.bbox1 ≤ k * cfg.bbox1 * cfg.bbox0 * 2 ^ l * 2 ^ l := by
    calc k * cfg.bbox1 ≤ k * cfg.bbox1 * cfg.bbox0 := Nat.le_mul_of_pos_right _ h.1
      _ ≤ k * cfg.bbox1 * cfg.bbox0 * 2 ^ l := Nat.le_mul_of_pos_right _ h2l
      _ ≤ k * cfg.bbox1 * cfg.bbox0 * 2 ^ l * 2 ^ l := Nat.le_mul_of_pos_right _ h2l
  have hc2 : k * cfg.bbox1 * cfg.bbox0 ≤ k * cfg.bbox1 * cfg.bbox0 * 2 ^ l * 2 ^ l := by
    calc k * cfg.bbox1 * cfg.bbox0 ≤ k * cfg.bbox1 * cfg.bbox0 * 2 ^ l :=
          Nat.le_mul_of_pos_right _ h2l
      _ ≤ k * cfg.bbox1 * cfg.bbox0 * 2 ^ l * 2 ^ l := Nat.le_mul_of_pos_right _ h2l
  have hc3 : k * cfg.bbox1 * cfg.bbox0 * 2 ^ l ≤ k * cfg.bbox1 * cfg.bbox0 * 2 ^ l * 2 ^ l :=
    Nat.le_mul_of_pos_right _ h2l
  have hkterm :
      mul32 (mul32 (mul32 (mul32 (k % U32) cfg.bbox1) cfg.bbox0) (2 ^ l % U32)) (2 ^ l % U32)
      = k * (cfg.Ny l * cfg.Nx l) := by
    rw [hkU, hm]
    unfold mul32
    rw [Nat.mod_eq_of_lt (by omega : k * cfg.bbox1 < U32)]
    rw [Nat.mod_eq_of_lt (by omega : k * cfg.bbox1 * cfg.bbox0 < U32)]
    rw [Nat.mod_eq_of_lt (by omega : k * cfg.bbox1 * cfg.bbox0 * 2 ^ l < U32)]
    rw [Nat.mod_eq_of_lt hkfull, hkfulleq]
  have hjc1 : j * cfg.bbox0 ≤ j * cfg.bbox0 * 2 ^ l := Nat.le_mul_of_pos_right _ h2l
  have hjterm : mul32 (mul32 (j % U32) cfg.bbox0) (2 ^ l % U32) = j * cfg.Nx l := by
    rw [hjU, hm]
    unfold mul32
    rw [Nat.mod_eq_of_lt (by omega : j * cfg.bbox0 < U32)]
    rw [Nat.mod_eq_of_lt hjfull, hjfulleq]
  unfold AmrCfg.getGlobalID
  simp only []
  rw [hkterm, hjterm, hiU]
  unfold AmrCfg.linIdx
  ring

/-- Core roundtrip: under Ok, getIndices inverts getGlobalID on in-bounds
triples. -/
theorem getIndices_getGlobalID (h : cfg.Ok) {l i j k : Nat}
    (hl : l ≤ cfg.refLevelMaxAllowed)
    (hi : i < cfg.Nx l) (hj : j < cfg.Ny l) (hk : k < cfg.Nz l) :
    cfg.getIndices (cfg.getGlobalID l i j k) = (l, i, j, k) := by
  have hg := getGlobalID_eq cfg h hl hi hj hk
  have hlin := linIdx_lt cfg h hi hj hk
  have hBeq := blocksAt_eq cfg h l
  have hub : AmrCfg.ubIdx cfg.offsets (cfg.getGlobalID l i j k) = l + 1 := by
    apply ubIdx_offsets cfg h hl
    · rw [hg]; omega
    · right; rw [offsetAt_succ, hg]; omega
  have hNx := Nx_pos cfg h l
  have hNy := Ny_pos cfg h l
  have hNz := Nz_pos cfg h l
  have hB := NNN_lt cfg h hl
  have hiU : i < U32 := by
    have := Nx_le_NNN cfg h l; omega
  have hjU : j < U32 := by
    have := Ny_le_NNN cfg h l; omega
  have hkU : k < U32 := by
    have := Nz_le_NNN cfg h l; omega
  unfold AmrCfg.getIndices
  rw [hub]
  simp only [Nat.add_sub_cancel]
  rw [hg, Nat.add_sub_cancel_left]
  have hNxe : cfg.bbox0 * 2 ^ l = cfg.Nx l := rfl
  have hNye : cfg.bbox1 * 2 ^ l = cfg.Ny l := rfl
  rw [hNxe, hNye]
  have hk1 : cfg.linIdx l i j k / (cfg.Ny l * cfg.Nx l) = k := by
    unfold AmrCfg.linIdx
    rw [Nat.add_assoc, Nat.mul_comm k, Nat.mul_add_div (Nat.mul_pos hNy hNx)]
    have hz : (j * cfg.Nx l + i) / (cfg.Ny l * cfg.Nx l) = 0 := by
      apply Nat.div_eq_of_lt
      calc j * cfg.Nx l + i < j * cfg.Nx l + cfg.Nx l := by omega
        _ = (j + 1) * cfg.Nx l := by ring
        _ ≤ cfg.Ny l * cfg.Nx l := Nat.mul_le_mul_right _ (by omega)
    rw [hz]
    omega
  rw [hk1, Nat.mod_eq_of_lt hkU]
  have hrest : cfg.linIdx l i j k - k * (cfg.Ny l * cfg.Nx l) = j * cfg.Nx l + i := by
    unfold AmrCfg.linIdx; omega
  rw [hrest]
  have hj1 : (j * cfg.Nx l + i) / cfg.Nx l = j := by
    rw [Nat.mul_comm j, Nat.mul_add_div hNx]
    rw [Nat.div_eq_of_lt hi]
    omega
  rw [hj1, Nat.mod_eq_of_lt hjU]
  have hi1 : j * cfg.Nx l + i - j * cfg.Nx l = i := by omega
  rw [hi1, Nat.mod_eq_of_lt hiU]

/-- levelOf of a freshly composed in-range id. -/
theorem levelOf_getGlobalID (h : cfg.Ok) {l i j k : Nat}
    (hl : l ≤ cfg.refLevelMaxAllowed)
    (hi : i < cfg.Nx l) (hj : j < cfg.Ny l) (hk : k < cfg.Nz l) :
    cfg.levelOf (cfg.getGlobalID l i j k) = l := by
  unfold AmrCfg.levelOf
  rw [getIndices_getGlobalID cfg h hl hi hj hk]

end Addressing

namespace AmrCfg

variable (cfg : AmrCfg)

/-- AmrMesh::getChildren: empty when one past the block's level would exceed
the maximum allowed level, otherwise the eight ids obtained from the doubled
indices (uint32 arithmetic on the indices). -/
def getChildren (g : Nat) : List Nat :=
  let t := cfg.getIndices g
  if cfg.refLevelMaxAllowed < t.1 + 1 then []
  else
    let l := t.1 + 1
    let i := mul32 t.2.1 2
    let j := mul32 t.2.2.1 2
    let k := mul32 t.2.2.2 2
    [cfg.getGlobalID l i j k,
     cfg.getGlobalID l (add32 i 1) j k,
     cfg.getGlobalID l i (add32 j 1) k,
     cfg.getGlobalID l (add32 i 1) (add32 j 1) k,
     cfg.getGlobalID l i j (add32 k 1),
     cfg.getGlobalID l (add32 i 1) j (add32 k 1),
     cfg.getGlobalID l i (add32 j 1) (add32 k 1),
     cfg.getGlobalID l (add32 i 1) (add32 j 1) (add32 k 1)]

/-- AmrMesh::getParent: the block itself at level 0, otherwise the id of the
halved indices one level up. -/
def getParent (g : Nat) : Nat :=
  let t := cfg.getIndices g
  if t.1 = 0 then g
  else cfg.getGlobalID (t.1 - 1) (t.2.1 / 2) (t.2.2.1 / 2) (t.2.2.2 / 2)

/-- Offsets -1..1 of the getNeighbors triple loop. -/
def offs3 : List Int := [-1, 0, 1]

/-- AmrMesh::getNeighbors: the 3x3x3 neighborhood minus the center, each
axis clipped by the uint32-wrapping comparison i+i_off >= Nx_max. -/
def getNeighbors (g : Nat) : List Nat :=
  let t := cfg.getIndices g
  let l := t.1
  let i := t.2.1
  let j := t.2.2.1
  let k := t.2.2.2
  offs3.flatMap fun koff =>
    if cfg.Nz l ≤ u32ofInt ((k : Int) + koff) then []
    else offs3.flatMap fun joff =>
      if cfg.Ny l ≤ u32ofInt ((j : Int) + joff) then []
      else offs3.flatMap fun ioff =>
        if cfg.Nx l ≤ u32ofInt ((i : Int) + ioff) then []
        else if ioff = 0 ∧ joff = 0 ∧ koff = 0 then []
        else [cfg.getGlobalID l (u32ofInt ((i : Int) + ioff)) (u32ofInt ((j : Int) + joff))
                (u32ofInt ((k : Int) + koff))]

/-- Offsets -1..2 of the getSiblingNeighbors triple loop. -/
def offs4 : List Int := [-1, 0, 1, 2]

/-- AmrMesh::getSiblingNeighbors: the 4x4x4 neighborhood of the sibling
octet minus the octet's own 8 cells. The source performs no boundary
clipping: every index is pushed after uint32 wrap. -/
def getSiblingNeighbors (g : Nat) : List Nat :=
  let t := cfg.getIndices g
  let l := t.1
  let i := t.2.1 - t.2.1 % 2
  let j := t.2.2.1 - t.2.2.1 % 2
  let k := t.2.2.2 - t.2.2.2 % 2
  offs4.flatMap fun koff =>
    offs4.flatMap fun joff =>
      offs4.flatMap fun ioff =>
        if (0 ≤ ioff ∧ ioff ≤ 1) ∧ (0 ≤ joff ∧ joff ≤ 1) ∧ (0 ≤ koff ∧ koff ≤ 1) then []
        else [cfg.getGlobalID l (u32ofInt ((i : Int) + ioff)) (u32ofInt ((j : Int) + joff))
                (u32ofInt ((k : Int) + koff))]

/-- AmrMesh::getSiblings (vector overload; the array overload used by
coarsen writes the same eight ids in the same order). -/
def getSiblings (g : Nat) : List Nat :=
  let t := cfg.getIndices g
  let l := t.1
  let i := t.2.1 - t.2.1 % 2
  let j := t.2.2.1 - t.2.2.1 % 2
  let k := t.2.2.2 - t.2.2.2 % 2
  [cfg.getGlobalID l i j k,
   cfg.getGlobalID l (add32 i 1) j k,
   cfg.getGlobalID l i (add32 j 1) k,
   cfg.getGlobalID l (add32 i 1) (add32 j 1) k,
   cfg.getGlobalID l i j (add32 k 1),
   cfg.getGlobalID l (add32 i 1) j (add32 k 1),
   cfg.getGlobalID l i (add32 j 1) (add32 k 1),
   cfg.getGlobalID l (add32 i 1) (add32 j 1) (add32 k 1)]

end AmrCfg

/-- The block mapping globalIDs : unordered_map from GlobalID to LocalID,
as a finite-support lookup function. -/
def Mesh : Type := Nat → Option Nat

/-- unordered_map::insert -- no overwrite: an existing key keeps its value. -/
def insertNoOv (m : Mesh) (g lid : Nat) : Mesh :=
  fun x => if x = g then some ((m g).getD lid) else m x

/-- unordered_map::erase. -/
def eraseKey (m : Mesh) (g : Nat) : Mesh :=
  fun x => if x = g then none else m x

theorem insertNoOv_self (m : Mesh) (g lid : Nat) : (insertNoOv m g lid g).isSome := by
  unfold insertNoOv; simp

theorem insertNoOv_other (m : Mesh) (g lid x : Nat) (hx : x ≠ g) :
    insertNoOv m g lid x = m x := by
  unfold insertNoOv; simp [hx]

theorem eraseKey_self (m : Mesh) (g : Nat) : eraseKey m g g = none := by
  unfold eraseKey; simp

theorem eraseKey_other (m : Mesh) (g x : Nat) (hx : x ≠ g) : eraseKey m g x = m x := by
  unfold eraseKey; simp [hx]

namespace AmrCfg

variable (cfg : AmrCfg)

/-- AmrMesh::checkBlock, with explicit recursion fuel. The source recursion
terminates because every child sits at a strictly larger computed level,
bounded by refLevelMaxAllowed; checkBlock below supplies enough fuel for
every such chain. -/
def checkBlockF (m : Mesh) : Nat → Nat → Bool
  | 0, _ => true
  | fuel + 1, g =>
    if (m g).isSome then true
    else (cfg.getChildren g).all fun c => checkBlockF m fuel c

/-- AmrMesh::checkBlock. -/
def checkBlock (m : Mesh) (g : Nat) : Bool :=
  cfg.checkBlockF m (cfg.refLevelMaxAllowed + 1) g

end AmrCfg

section ClaimC1

/-- Concrete mesh parameters for the C1 counterexample: a base grid of
2^31 x 1 x 1 blocks and one refinement level. -/
def cexCfg : AmrCfg := ⟨2 ^ 31, 1, 1, 1⟩

/-- C1 counterexample: with a 2^31 x 1 x 1 base grid and maximum level 1,
the triple (level,i,j,k) = (1,0,0,1) is inside the level's grid bounds, yet
getIndices (getGlobalID 1 0 0 1) = (1,0,0,0): the k-contribution of
getGlobalID is lost to uint32 overflow, so the stated roundtrip fails. -/
theorem C1_counterexample :
    1 ≤ cexCfg.refLevelMaxAllowed ∧ 0 < cexCfg.Nx 1 ∧ 0 < cexCfg.Ny 1 ∧ 1 < cexCfg.Nz 1 ∧
    cexCfg.getIndices (cexCfg.getGlobalID 1 0 0 1) ≠ (1, 0, 0, 1) := by
  refine ⟨by decide, by decide, by decide, by decide, ?_⟩
  decide

/-- C1 (amended): if additionally the deepest level's block count stays
below 2^32 -- so the uint32 index arithmetic of getGlobalID cannot wrap --
then for every level up to refLevelMaxAllowed and every in-bounds index
triple, getIndices applied to getGlobalID(level,i,j,k) returns exactly
(level,i,j,k) once the offsets table is built. -/
theorem C1_roundtrip (cfg : AmrCfg) (h : cfg.Ok) (l i j k : Nat)
    (hl : l ≤ cfg.refLevelMaxAllowed)
    (hi : i < cfg.Nx l) (hj : j < cfg.Ny l) (hk : k < cfg.Nz l) :
    cfg.getIndices (cfg.getGlobalID l i j k) = (l, i, j, k) :=
  getIndices_getGlobalID cfg h hl hi hj hk

/-- Concrete well-formed mesh parameters used by several witnesses. -/
def okCfg : AmrCfg := ⟨2, 2, 2, 2⟩

/-- C1 witness: the amended roundtrip at a concrete in-bounds triple. -/
theorem C1_roundtrip_witness :
    okCfg.Ok ∧ okCfg.getIndices (okCfg.getGlobalID 1 1 0 3) = (1, 1, 0, 3) :=
  ⟨by decide, C1_roundtrip okCfg (by decide) 1 1 0 3 (by decide) (by decide) (by decide)
    (by decide)⟩

end ClaimC1

/-! ## The VLSV reader (vlsvreader2.cpp) -/

namespace Rdr

/-- VLSV::datatype. -/
inductive Datatype
  | UNKNOWN
  | INT
  | UINT
  | FLOAT
deriving DecidableEq, Repr

/-- VLSVReader::arrayOpen (struct ArrayOpen): cached metadata of the most
recently resolved array. -/
structure ArrayOpen where
  offset : Nat
  tagName : String
  arraySize : Nat
  vectorSize : Nat
  dataSize : Nat
  dataType : Datatype
deriving DecidableEq, Repr

/-- The fields of an XML footer node that the reader consumes: the tag body
(payload byte offset) and the four array attributes, numeric fields already
through atoi. The footer parser itself is an external collaborator. -/
structure XMLNodeM where
  value : Nat
  arraysize : Nat
  vectorsize : Nat
  datasize : Nat
  datatype : String
deriving DecidableEq, Repr

/-- Tail of VLSVReader::readArray after arrayOpen has been refreshed: the
three zero-size checks, the begin+amount range check, then the seekg/read
with the gcount test. The underlying stream delivers
min(requested, fileSize - start) bytes into the caller buffer. -/
def readArrayRest (file : List Nat) (ao2 : ArrayOpen) (bgn amount : Nat)
    (buffer : List Nat) : Bool × ArrayOpen × List Nat :=
  if ao2.arraySize = 0 then (false, ao2, buffer)
  else if ao2.vectorSize = 0 then (false, ao2, buffer)
  else if ao2.dataSize = 0 then (false, ao2, buffer)
  else if ao2.arraySize < bgn + amount then (false, ao2, buffer)
  else
    let start := ao2.offset + bgn * ao2.vectorSize * ao2.dataSize
    let req := amount * ao2.vectorSize * ao2.dataSize
    let gcount := min req (file.length - start)
    let buf2 := (file.drop start).take gcount ++ buffer.drop gcount
    if gcount ≠ req then (false, ao2, buf2) else (true, ao2, buf2)

/-- VLSVReader::readArray. Inputs: whether a file is open, the file bytes,
the current cached arrayOpen, the result of xmlReader.find for
(tagName,attribs), the requested element range and the caller's buffer.
Output: the returned flag, the arrayOpen state after the call and the
buffer contents after the call. Note that readArray (unlike loadArray and
getArrayInfo) treats the datatype string "unknown" as an error, and that a
zero amount returns before the tag is even resolved. -/
def readArray (fileOpen : Bool) (file : List Nat) (arrayOpen : ArrayOpen)
    (find : Option XMLNodeM) (tagName : String) (bgn amount : Nat)
    (buffer : List Nat) : Bool × ArrayOpen × List Nat :=
  if fileOpen = false then (false, arrayOpen, buffer)
  else if amount = 0 then (true, arrayOpen, buffer)
  else
    match find with
    | none => (false, arrayOpen, buffer)
    | perhaps@(some node) =>
      let ao1 : ArrayOpen :=
        { offset := node.value, tagName := tagName, arraySize := node.arraysize,
          vectorSize := node.vectorsize, dataSize := node.datasize,
          dataType := arrayOpen.dataType }
      if node.datatype = "int" then
        readArrayRest file { ao1 with dataType := Datatype.INT } bgn amount buffer
      else if node.datatype = "uint" then
        readArrayRest file { ao1 with dataType := Datatype.UINT } bgn amount buffer
      else if node.datatype = "float" then
        readArrayRest file { ao1 with dataType := Datatype.FLOAT } bgn amount buffer
      else (false, ao1, buffer)

/-- Tail of VLSVReader::loadArray after arrayOpen has been refreshed. -/
def loadArrayRest (ao1 : ArrayOpen) : Bool × ArrayOpen :=
  if ao1.arraySize = 0 then (false, ao1)
  else if ao1.vectorSize = 0 then (false, ao1)
  else if ao1.dataSize = 0 then (false, ao1)
  else (true, ao1)

/-- VLSVReader::loadArray: resolve the tag, refresh arrayOpen (accepting the
"unknown" datatype), and demand nonzero sizes. -/
def loadArray (fileOpen : Bool) (arrayOpen : ArrayOpen) (find : Option XMLNodeM)
    (tagName : String) : Bool × ArrayOpen :=
  if fileOpen = false then (false, arrayOpen)
  else
    match find with
    | none => (false, arrayOpen)
    | perhaps@(some node) =>
      let ao1 : ArrayOpen :=
        { offset := node.value, tagName := tagName, arraySize := node.arraysize,
          vectorSize := node.vectorsize, dataSize := node.datasize,
          dataType := arrayOpen.dataType }
      if node.datatype = "unknown" then
        loadArrayRest { ao1 with dataType := Datatype.UNKNOWN }
      else if node.datatype = "int" then
        loadArrayRest { ao1 with dataType := Datatype.INT }
      else if node.datatype = "uint" then
        loadArrayRest { ao1 with dataType := Datatype.UINT }
      else if node.datatype = "float" then
        loadArrayRest { ao1 with dataType := Datatype.FLOAT }
      else (false, ao1)

/-- VLSVParReader::getArrayInfo(tagName,attribs), run collectively: the
master resolves the metadata through VLSVReader::loadArray, the resulting
success flag is broadcast to every process first, and only when it is
nonzero are the five scalar arrayOpen fields broadcast (the workers
overwrite their cached fields with the master values; tagName is not
broadcast). Every process is assumed to reach the collective call, per the
concurrency model of the protocol. The result lists the master's
(returned flag, arrayOpen) and every worker's (returned flag, arrayOpen). -/
def parGetArrayInfo (masterFileOpen : Bool) (masterAO : ArrayOpen)
    (masterFind : Option XMLNodeM) (tagName : String)
    (workerStates : List ArrayOpen) : (Bool × ArrayOpen) × List (Bool × ArrayOpen) :=
  let lr := loadArray masterFileOpen masterAO masterFind tagName
  let flag := lr.1
  if flag = false then
    ((false, lr.2), workerStates.map fun st => (false, st))
  else
    ((true, lr.2), workerStates.map fun st =>
      (true,
        { st with
          offset := lr.2.offset
          arraySize := lr.2.arraySize
          vectorSize := lr.2.vectorSize
          dataSize := lr.2.dataSize
          dataType := lr.2.dataType }))

end Rdr

section ClaimC9

open Rdr

/-- C9: on an open reader, readArray with amount = 0 returns true at once:
for every footer-resolution outcome (including the tag not existing at
all), every file content and every begin offset, the result is success with
the cached arrayOpen and the caller's buffer untouched. -/
theorem C9_zero_amount (file : List Nat) (arrayOpen : ArrayOpen)
    (find : Option XMLNodeM) (tagName : String) (bgn : Nat) (buffer : List Nat) :
    readArray true file arrayOpen find tagName bgn 0 buffer = (true, arrayOpen, buffer) :=
  rfl

end ClaimC9

section ClaimC7

open Rdr

/-- Initial arrayOpen contents (value-initialized). -/
def aoInit : ArrayOpen := ⟨0, "", 0, 0, 0, Datatype.UNKNOWN⟩

/-- A footer node declaring arraysize 5, vectorsize 1, datasize 1, int. -/
def c7node : XMLNodeM := ⟨16, 5, 1, 1, "int"⟩

/-- C7 counterexample: on an open file, with the requested region
begin = 10, amount = 0 exceeding the declared arraysize 5, readArray
nevertheless returns true: the amount = 0 early exit bypasses the range
check, refuting the claim that it returns false whenever begin + amount
exceeds the declared element count. -/
theorem C7_counterexample :
    c7node.arraysize < 10 + 0 ∧
      (readArray true [] aoInit (some c7node) "MESH" 10 0 []).1 = true :=
  ⟨by decide, rfl⟩

/-- C7 (amended): for a nonzero amount the stated failure conditions hold:
readArray on an open file returns false whenever begin + amount exceeds the
declared arraysize, returns false whenever the stream delivers fewer than
amount*vectorSize*dataSize bytes, and returns true only once the full
requested byte range has been copied into the caller's buffer (and the
range check passed). -/
theorem C7_readArray_checks (file : List Nat) (ao : ArrayOpen) (node : XMLNodeM)
    (tagName : String) (bgn amount : Nat) (buffer : List Nat) (hamt : amount ≠ 0) :
    ((node.arraysize < bgn + amount →
        (readArray true file ao (some node) tagName bgn amount buffer).1 = false) ∧
      (file.length < node.value + bgn * node.vectorsize * node.datasize
          + amount * node.vectorsize * node.datasize →
        (readArray true file ao (some node) tagName bgn amount buffer).1 = false) ∧
      ((readArray true file ao (some node) tagName bgn amount buffer).1 = true →
        bgn + amount ≤ node.arraysize ∧
        (readArray true file ao (some node) tagName bgn amount buffer).2.2 =
          (file.drop (node.value + bgn * node.vectorsize * node.datasize)).take
              (amount * node.vectorsize * node.datasize)
            ++ buffer.drop (amount * node.vectorsize * node.datasize))) := by
  have hrest : ∀ ao2 : ArrayOpen, ao2.offset = node.value →
      ao2.arraySize = node.arraysize → ao2.vectorSize = node.vectorsize →
      ao2.dataSize = node.datasize →
      ((node.arraysize < bgn + amount →
          (readArrayRest file ao2 bgn amount buffer).1 = false) ∧
        (file.length < node.value + bgn * node.vectorsize * node.datasize
            + amount * node.vectorsize * node.datasize →
          (readArrayRest file ao2 bgn amount buffer).1 = false) ∧
        ((readArrayRest file ao2 bgn amount buffer).1 = true →
          bgn + amount ≤ node.arraysize ∧
          (readArrayRest file ao2 bgn amount buffer).2.2 =
            (file.drop (node.value + bgn * node.vectorsize * node.datasize)).take
                (amount * node.vectorsize * node.datasize)
              ++ buffer.drop (amount * node.vectorsize * node.datasize))) := by
    intro ao2 hoff hsz hvec hds
    unfold readArrayRest
    by_cases h1 : ao2.arraySize = 0
    · simp only [h1, if_pos rfl]
      refine ⟨fun _ => rfl, fun _ => rfl, fun hc => by cases hc⟩
    · rw [if_neg h1]
      by_cases h2 : ao2.vectorSize = 0
      · simp only [h2, if_pos rfl]
        refine ⟨fun _ => rfl, fun _ => rfl, fun hc => by cases hc⟩
      · rw [if_neg h2]
        by_cases h3 : ao2.dataSize = 0
        · simp only [h3, if_pos rfl]
          refine ⟨fun _ => rfl, fun _ => rfl, fun hc => by cases hc⟩
        · rw [if_neg h3]
          by_cases h4 : ao2.arraySize < bgn + amount
          · rw [if_pos h4]
            refine ⟨fun _ => rfl, fun _ => rfl, fun hc => by cases hc⟩
          · rw [if_neg h4]
            simp only []
            constructor
            · intro hrange
              exfalso; rw [hsz] at h4; omega
            constructor
            · intro hshort
              have hreqpos : 0 < amount * ao2.vectorSize * ao2.dataSize := by
                have := Nat.pos_of_ne_zero h2
                have := Nat.pos_of_ne_zero h3
                have := Nat.pos_of_ne_zero hamt
                positivity
              have hlt : file.length - (ao2.offset + bgn * ao2.vectorSize * ao2.dataSize)
                  < amount * ao2.vectorSize * ao2.dataSize := by
                rw [hoff, hvec, hds] at *
                omega
              have hmin : min (amount * ao2.vectorSize * ao2.dataSize)
                  (file.length - (ao2.offset + bgn * ao2.vectorSize * ao2.dataSize))
                  ≠ amount * ao2.vectorSize * ao2.dataSize := by omega
              rw [if_pos hmin]
            · intro htrue
              by_cases h5 : min (amount * ao2.vectorSize * ao2.dataSize)
                  (file.length - (ao2.offset + bgn * ao2.vectorSize * ao2.dataSize))
                  ≠ amount * ao2.vectorSize * ao2.dataSize
              · rw [if_pos h5] at htrue; cases htrue
              · rw [if_neg h5] at htrue ⊢
                push_neg at h5
                constructor
                · rw [hsz] at h4; omega
                · simp only []
                  rw [h5, hoff, hvec, hds]
  unfold readArray
  rw [if_neg (by simp : ¬(true = false)), if_neg hamt]
  simp only []
  by_cases hdt1 : node.datatype = "int"
  · rw [if_pos hdt1]
    exact hrest _ rfl rfl rfl rfl
  · rw [if_neg hdt1]
    by_cases hdt2 : node.datatype = "uint"
    · rw [if_pos hdt2]
      exact hrest _ rfl rfl rfl rfl
    · rw [if_neg hdt2]
      by_cases hdt3 : node.datatype = "float"
      · rw [if_pos hdt3]
        exact hrest _ rfl rfl rfl rfl
      · rw [if_neg hdt3]
        refine ⟨fun _ => rfl, fun _ => rfl, fun hc => by cases hc⟩

/-- C7 witness: the amended theorem applied at a concrete short-read input:
arraysize 5 elements of one byte each, file of 17 bytes, payload at 16,
request of 2 elements at begin 0 can deliver only 1 byte, so the call
fails. -/
theorem C7_readArray_checks_witness :
    (2 : Nat) ≠ 0 ∧
      (Rdr.readArray true (List.replicate 17 0) aoInit (some c7node) "MESH" 0 2
        (List.replicate 2 7)).1 = false := by
  refine ⟨by decide, ?_⟩
  have h := C7_readArray_checks (List.replicate 17 0) aoInit c7node "MESH" 0 2
    (List.replicate 2 7) (by decide)
  exact h.2.1 (by decide)

end ClaimC7

section ClaimC8

open Rdr

/-- C8: when the master's local metadata resolution fails (for instance the
tag does not exist: find = none), the broadcast success flag is zero, every
process -- master and workers alike -- returns false from the collective
getArrayInfo, and no worker's cached metadata is modified. -/
theorem C8_uniform_failure (masterFileOpen : Bool) (masterAO : ArrayOpen)
    (masterFind : Option XMLNodeM) (tagName : String)
    (workerStates : List ArrayOpen)
    (hfail : (loadArray masterFileOpen masterAO masterFind tagName).1 = false) :
    (parGetArrayInfo masterFileOpen masterAO masterFind tagName workerStates).1.1 = false ∧
      (parGetArrayInfo masterFileOpen masterAO masterFind tagName workerStates).2 =
        workerStates.map fun st => (false, st) := by
  unfold parGetArrayInfo
  rw [if_pos hfail]
  exact ⟨rfl, rfl⟩

/-- C8 witness: a nonexistent tag on the master (find = none) with two
worker processes: everyone observes failure and the workers keep their
metadata. -/
theorem C8_uniform_failure_witness :
    (parGetArrayInfo true aoInit none "MESH" [aoInit, aoInit]).1.1 = false ∧
      (parGetArrayInfo true aoInit none "MESH" [aoInit, aoInit]).2 =
        [aoInit, aoInit].map fun st => (false, st) :=
  C8_uniform_failure true aoInit none "MESH" [aoInit, aoInit] rfl

end ClaimC8

/-! ## Mesh mutation: coarsen and refine -/

section MeshOps

variable (cfg : AmrCfg)
variable (cbCoarsen : List Nat → List Nat → Nat → Nat)
variable (cbRefine : Nat → Nat → Nat → Nat)

/-- The erase loop at the end of AmrMesh::coarsen: every sibling must still
be found right before being erased, otherwise the process is aborted
(exit(1)); none models the abort. -/
def eraseSibs : Mesh → List Nat → Option Mesh
  | m, [] => some m
  | m, s :: rest => if (m s).isSome then eraseSibs (eraseKey m s) rest else none

/-- AmrMesh::coarsen. The Option layer models the exit(1) abort inside the
erase loop (none = process halt); every ordinary return is some. cbCoarsen
models the user callback producing the parent's LocalID from the sibling
ids, the sibling LocalIDs and the parent id. -/
def coarsen (m : Mesh) (g : Nat) : Option (Bool × Mesh) :=
  if (m g).isNone then some (false, m)
  else if (cfg.getIndices g).1 = 0 then some (false, m)
  else if (cfg.getSiblingNeighbors g).any
      (fun n => (cfg.getChildren n).any fun c => (m c).isSome) then
    some (false, m)
  else if (cfg.getSiblings g).any (fun s => (m s).isNone) then some (false, m)
  else
    let sibs := cfg.getSiblings g
    let sibLIDs := sibs.map fun s => (m s).getD INVALID_LOCALID
    let newLID := cbCoarsen sibs sibLIDs (cfg.getParent g)
    match eraseSibs m sibs with
    | none => none
    | some m1 => some (true, insertNoOv m1 (cfg.getParent g) newLID)

/-- The mapping mutation performed by a successful AmrMesh::refine before
the balance loop: erase the parent, insert the eight children (uint32 index
arithmetic, keys exactly as the source composes them, callback-supplied
LocalIDs). -/
def refineInserted (m : Mesh) (g : Nat) : Mesh :=
  let t := cfg.getIndices g
  let l := t.1 + 1
  let i := mul32 t.2.1 2
  let j := mul32 t.2.2.1 2
  let k := mul32 t.2.2.2 2
  let parentLID := (m g).getD 0
  let m1 := eraseKey m g
  let m2 := insertNoOv m1 (cfg.getGlobalID l i j k) (cbRefine g parentLID 0)
  let m3 := insertNoOv m2 (cfg.getGlobalID l (add32 i 1) j k) (cbRefine g parentLID 1)
  let m4 := insertNoOv m3 (cfg.getGlobalID l i (add32 j 1) k) (cbRefine g parentLID 2)
  let m5 := insertNoOv m4 (cfg.getGlobalID l (add32 i 1) (add32 j 1) k) (cbRefine g parentLID 3)
  let m6 := insertNoOv m5 (cfg.getGlobalID l i j (add32 k 1)) (cbRefine g parentLID 4)
  let m7 := insertNoOv m6 (cfg.getGlobalID l (add32 i 1) j (add32 k 1)) (cbRefine g parentLID 5)
  let m8 := insertNoOv m7 (cfg.getGlobalID l i (add32 j 1) (add32 k 1)) (cbRefine g parentLID 6)
  insertNoOv m8 (cfg.getGlobalID l (add32 i 1) (add32 j 1) (add32 k 1)) (cbRefine g parentLID 7)

mutual

/-- AmrMesh::refine with explicit recursion fuel, mutually with the 2:1
balance enforcement loop over the neighbors. The source recursion
terminates because every recursive call targets the parent of a same-level
neighbor, one computed level down; refine below supplies fuel
refLevelMaxAllowed+1, enough for every chain on a structurally valid mesh.
cbRefine models the user callback producing the eight children LocalIDs
from the parent id and the parent LocalID (slot index 0..7). -/
def refineGo : Nat → Mesh → Nat → Bool × Mesh
  | 0, m, _ => (false, m)
  | fuel + 1, m, g =>
    if (m g).isNone then (false, m)
    else
      let nbrs := cfg.getNeighbors g
      let t := cfg.getIndices g
      if t.1 = cfg.refLevelMaxAllowed then (false, m)
      else (true, refineCascade fuel (refineInserted cfg cbRefine m g) nbrs)

/-- The balance-enforcement loop at the end of AmrMesh::refine: for every
neighbor of the refined block, if the neighbor's parent is a distinct id
that currently exists, refine that parent recursively (result flag is
discarded by the source). -/
def refineCascade : Nat → Mesh → List Nat → Mesh
  | _, m, [] => m
  | fuel, m, n :: rest =>
    if cfg.getParent n = n then refineCascade fuel m rest
    else if (m (cfg.getParent n)).isSome then
      refineCascade fuel (refineGo fuel m (cfg.getParent n)).2 rest
    else refineCascade fuel m rest

end

/-- AmrMesh::refine. -/
def refine (m : Mesh) (g : Nat) : Bool × Mesh :=
  refineGo cfg cbRefine (cfg.refLevelMaxAllowed + 1) m g

end MeshOps

section ClaimC10

/-- C10: checkBlock is true for every block whose computed refinement level
is the maximum allowed one, whether or not the block exists in the mapping:
when absent, getChildren yields no children at that level and the recursive
check over the empty child list is vacuously true, so the self-check cannot
distinguish an absent deepest-level block from an existing one. -/
theorem C10_checkBlock_max (cfg : AmrCfg) (m : Mesh) (g : Nat)
    (hl : cfg.levelOf g = cfg.refLevelMaxAllowed) :
    cfg.checkBlock m g = true := by
  have hch : cfg.getChildren g = [] := by
    unfold AmrCfg.getChildren
    rw [if_pos]
    unfold AmrCfg.levelOf at hl
    omega
  unfold AmrCfg.checkBlock
  show AmrCfg.checkBlockF cfg m (cfg.refLevelMaxAllowed + 1) g = true
  unfold AmrCfg.checkBlockF
  by_cases hp : (m g).isSome
  · rw [if_pos hp]
  · rw [if_neg hp, hch]
    rfl

/-- C10 witness: base grid 2x2x2 with two refinement levels; block 72 is the
first level-2 id, the mapping is empty, and checkBlock accepts it. -/
theorem C10_checkBlock_max_witness :
    okCfg.levelOf 72 = okCfg.refLevelMaxAllowed ∧
      okCfg.checkBlock (fun _ => none) 72 = true :=
  ⟨by decide, C10_checkBlock_max okCfg (fun _ => none) 72 (by decide)⟩

end ClaimC10

section ClaimC3

/-- C3: coarsen returns false and leaves the mapping untouched whenever one
of the eight siblings is absent or some sibling-octet neighbor has a child
present in the mapping; together with the id-absent and level-0 guards
(also covered: every early return below is (false, m)) no mutation and no
abort can occur on such inputs. -/
theorem C3_coarsen_guard (cfg : AmrCfg) (cbC : List Nat → List Nat → Nat → Nat)
    (m : Mesh) (g : Nat)
    (hfail : (∃ s ∈ cfg.getSiblings g, m s = none) ∨
      ∃ n ∈ cfg.getSiblingNeighbors g, ∃ c ∈ cfg.getChildren n, (m c).isSome) :
    coarsen cfg cbC m g = some (false, m) := by
  unfold coarsen
  by_cases h0 : (m g).isNone
  · rw [if_pos h0]
  · rw [if_neg h0]
    by_cases h1 : (cfg.getIndices g).1 = 0
    · rw [if_pos h1]
    · rw [if_neg h1]
      by_cases h2 : (cfg.getSiblingNeighbors g).any
          (fun n => (cfg.getChildren n).any fun c => (m c).isSome) = true
      · rw [if_pos h2]
      · rw [if_neg h2]
        have h3 : (cfg.getSiblings g).any (fun s => (m s).isNone) = true := by
          rcases hfail with ⟨s, hs, hnone⟩ | ⟨n, hn, c, hc, hsome⟩
          · simp only [List.any_eq_true]
            exact ⟨s, hs, by rw [hnone]; rfl⟩
          · exfalso
            apply h2
            simp only [List.any_eq_true]
            exact ⟨n, hn, c, hc, hsome⟩
        rw [if_pos h3]

/-- Single-block mesh used by the C3 witness: only the level-1 block with
id 1 exists. -/
def c3mesh : Mesh := fun x => if x = 1 then some 0 else none

/-- Mesh parameters for the C3 witness: 1x1x1 base grid, one level. -/
def c3cfg : AmrCfg := ⟨1, 1, 1, 1⟩

/-- C3 witness: block 1 is a level-1 block whose sibling 2 is absent, so
coarsen fails with the mapping unchanged. -/
theorem C3_coarsen_guard_witness :
    ((∃ s ∈ c3cfg.getSiblings 1, c3mesh s = none) ∨
      ∃ n ∈ c3cfg.getSiblingNeighbors 1, ∃ c ∈ c3cfg.getChildren n,
        (c3mesh c).isSome) ∧
      coarsen c3cfg (fun _ _ _ => 0) c3mesh 1 = some (false, c3mesh) := by
  have hf : (∃ s ∈ c3cfg.getSiblings 1, c3mesh s = none) ∨
      ∃ n ∈ c3cfg.getSiblingNeighbors 1, ∃ c ∈ c3cfg.getChildren n,
        (c3mesh c).isSome := by
    left
    refine ⟨2, by decide, by unfold c3mesh; decide⟩
  exact ⟨hf, C3_coarsen_guard c3cfg (fun _ _ _ => 0) c3mesh 1 hf⟩

end ClaimC3

section ClaimC6

/-- Mesh parameters for the C6 evaluation: 2x2x2 base grid, one level. -/
def c6cfg : AmrCfg := ⟨2, 2, 2, 1⟩

/-- C6 (code divergence exhibit): for the corner block 0 at level 0 the
source getSiblingNeighbors performs no boundary clipping: it returns all
56 octet-neighbor slots, among them the address 12884901881 produced by the
uint32 wrap of the index triple (-1,-1,-1), which lies beyond the address
range of every refinement level (offsetAt (maxLevel+1) = 72). The claim's
clipping of out-of-bounds addresses does not happen. -/
theorem C6_no_clipping :
    (c6cfg.getSiblingNeighbors 0).length = 56 ∧
      12884901881 ∈ c6cfg.getSiblingNeighbors 0 ∧
      c6cfg.offsetAt (c6cfg.refLevelMaxAllowed + 1) ≤ 12884901881 := by
  refine ⟨by decide, by decide, by decide⟩

end ClaimC6

/-! ## Physical-coordinate lookup (AmrMesh::getGlobalID(x,y,z)) -/

/-- The six mesh limits set by AmrMesh::initialize. Coordinates are double
in the source; they are embedded as exact rationals, and the evaluations
below use only values on which double arithmetic is exact. -/
structure MeshLims where
  xmin : ℚ
  xmax : ℚ
  ymin : ℚ
  ymax : ℚ
  zmin : ℚ
  zmax : ℚ

/-- static_cast of a nonnegative double to uint32_t truncates toward zero:
the floor, for the nonnegative values reached here. -/
def truncU32 (q : ℚ) : Nat := (⌊q⌋).toNat

/-- Body of one iteration of the level scan in AmrMesh::getGlobalID(x,y,z).
Faithful to the source: the per-level block counts are bbox[d]*(r+1) (not
bbox[d]*2^r), and the block id is composed from the truncated quotients. -/
def xyzCandidate (cfg : AmrCfg) (lim : MeshLims) (r : Nat) (x y z : ℚ) : Nat :=
  let nx : Nat := mul32 cfg.bbox0 (r + 1)
  let ny : Nat := mul32 cfg.bbox1 (r + 1)
  let nz : Nat := mul32 cfg.bbox2 (r + 1)
  let dx : ℚ := (lim.xmax - lim.xmin) / (nx : ℚ)
  let dy : ℚ := (lim.ymax - lim.ymin) / (ny : ℚ)
  let dz : ℚ := (lim.zmax - lim.zmin) / (nz : ℚ)
  let i := truncU32 ((x - lim.xmin) / dx)
  let j := truncU32 ((y - lim.ymin) / dy)
  let k := truncU32 ((z - lim.zmin) / dz)
  cfg.getGlobalID r i j k

/-- The level scan of AmrMesh::getGlobalID(x,y,z): levels r, r+1, ... are
tried while fuel lasts; the first level whose candidate id exists is
returned, INVALID_GLOBALID once the loop ends. -/
def xyzScan (cfg : AmrCfg) (lim : MeshLims) (m : Mesh) (x y z : ℚ) :
    Nat → Nat → Nat
  | 0, _ => INVALID_GLOBALID
  | fuel + 1, r =>
    let gid := xyzCandidate cfg lim r x y z
    if (m gid).isSome then gid
    else xyzScan cfg lim m x y z fuel (r + 1)

/-- AmrMesh::getGlobalID(x,y,z). The three early-out comparisons are
exactly the source's: the second and third compare x (not y and z) against
YMAX and ZMAX. -/
def getGlobalIDxyz (cfg : AmrCfg) (lim : MeshLims) (m : Mesh) (x y z : ℚ) : Nat :=
  if x < lim.xmin ∨ lim.xmax < x then INVALID_GLOBALID
  else if y < lim.ymin ∨ lim.ymax < x then INVALID_GLOBALID
  else if z < lim.zmin ∨ lim.zmax < x then INVALID_GLOBALID
  else xyzScan cfg lim m x y z (cfg.refLevelMaxAllowed + 1) 0

section ClaimC4

/-- Unit-cube limits for the C4 exhibit. -/
def c4lims : MeshLims := ⟨0, 1, 0, 1, 0, 1⟩

/-- Mesh for the C4 exhibit: only the block with id 25 exists. -/
def c4mesh : Mesh := fun g => if g = 25 then some 0 else none

/-- C4 (code divergence exhibit): with limits [0,1]^3 the point
(1/2, 5, 1/2) lies outside the mesh (y = 5 > ymax = 1), yet
getGlobalID(x,y,z) does not return the invalid sentinel: the bounds checks
compare x against YMAX and ZMAX, so the out-of-range y slips through, the
scan linearizes j = 10 at level 0 of the 2x2x2 grid, and the aliased id 25
(an existing level-1 block of the mapping) is returned. -/
theorem xyzScan_step (cfg : AmrCfg) (lim : MeshLims) (m : Mesh) (x y z : ℚ)
    (fuel r : Nat) :
    xyzScan cfg lim m x y z (fuel + 1) r =
      if (m (xyzCandidate cfg lim r x y z)).isSome then xyzCandidate cfg lim r x y z
      else xyzScan cfg lim m x y z fuel (r + 1) := rfl

theorem C4_y_check_ignored :
    (c4lims.ymax < 5) ∧
      getGlobalIDxyz c6cfg c4lims c4mesh (1 / 2) 5 (1 / 2) = 25 ∧
      25 ≠ INVALID_GLOBALID := by
  refine ⟨by norm_num [c4lims], ?_, by decide⟩
  have hcand : xyzCandidate c6cfg c4lims 0 (1 / 2) 5 (1 / 2) = 25 := by
    unfold xyzCandidate truncU32
    norm_num [c6cfg, c4lims, mul32, U32]
    decide
  unfold getGlobalIDxyz
  rw [if_neg (by norm_num [c4lims]), if_neg (by norm_num [c4lims]),
    if_neg (by norm_num [c4lims])]
  rw [show c6cfg.refLevelMaxAllowed + 1 = 1 + 1 from rfl, xyzScan_step, hcand]
  have : (c4mesh 25).isSome := by unfold c4mesh; decide
  rw [if_pos this]

end ClaimC4

/-! ## Groundwork for the refine / coarsen claims -/

section Geometry

variable (cfg : AmrCfg)

/-- Every composed id sits at or above its level's offset. -/
theorem getGlobalID_ge (l i j k : Nat) :
    cfg.offsetAt l ≤ cfg.getGlobalID l i j k := by
  unfold AmrCfg.getGlobalID
  simp only []
  omega

/-- A valid id sits strictly below the next level's offset. -/
theorem getGlobalID_lt_succ (h : cfg.Ok) {l i j k : Nat}
    (hl : l ≤ cfg.refLevelMaxAllowed)
    (hi : i < cfg.Nx l) (hj : j < cfg.Ny l) (hk : k < cfg.Nz l) :
    cfg.getGlobalID l i j k < cfg.offsetAt (l + 1) := by
  rw [getGlobalID_eq cfg h hl hi hj hk, offsetAt_succ, blocksAt_eq cfg h]
  have := linIdx_lt cfg h hi hj hk
  omega

theorem offsetAt_le_mono {a b : Nat} (hab : a ≤ b) :
    cfg.offsetAt a ≤ cfg.offsetAt b := by
  rcases Nat.exists_eq_add_of_le hab with ⟨c, rfl⟩
  clear hab
  induction c with
  | zero => rfl
  | succ n ih =>
    rw [show a + (n + 1) = (a + n) + 1 by omega, offsetAt_succ]
    omega

/-- Valid ids of distinct levels are distinct. -/
theorem ne_of_level_lt (h : cfg.Ok) {la ia ja ka lb ib jb kb : Nat}
    (hla : la ≤ cfg.refLevelMaxAllowed)
    (hia : ia < cfg.Nx la) (hja : ja < cfg.Ny la) (hka : ka < cfg.Nz la)
    (hab : la < lb) :
    cfg.getGlobalID la ia ja ka ≠ cfg.getGlobalID lb ib jb kb := by
  intro heq
  have h1 := getGlobalID_lt_succ cfg h hla hia hja hka
  have h2 := getGlobalID_ge cfg lb ib jb kb
  have h3 : cfg.offsetAt (la + 1) ≤ cfg.offsetAt lb := offsetAt_le_mono cfg (by omega)
  omega

/-- getGlobalID is injective on valid triples. -/
theorem getGlobalID_inj (h : cfg.Ok) {la ia ja ka lb ib jb kb : Nat}
    (hla : la ≤ cfg.refLevelMaxAllowed)
    (hia : ia < cfg.Nx la) (hja : ja < cfg.Ny la) (hka : ka < cfg.Nz la)
    (hlb : lb ≤ cfg.refLevelMaxAllowed)
    (hib : ib < cfg.Nx lb) (hjb : jb < cfg.Ny lb) (hkb : kb < cfg.Nz lb)
    (heq : cfg.getGlobalID la ia ja ka = cfg.getGlobalID lb ib jb kb) :
    la = lb ∧ ia = ib ∧ ja = jb ∧ ka = kb := by
  have := congrArg cfg.getIndices heq
  rw [getIndices_getGlobalID cfg h hla hia hja hka,
    getIndices_getGlobalID cfg h hlb hib hjb hkb] at this
  exact ⟨congrArg (fun t => t.1) this, congrArg (fun t => t.2.1) this,
    congrArg (fun t => t.2.2.1) this, congrArg (fun t => t.2.2.2) this⟩

/-- Lower bound on the computed level from a lower bound on the id. -/
theorem levelOf_ge (h : cfg.Ok) {t g : Nat} (ht : t ≤ cfg.refLevelMaxAllowed)
    (hg : cfg.offsetAt t ≤ g) : t ≤ cfg.levelOf g := by
  have key : ∀ (a n : Nat), a + n = cfg.refLevelMaxAllowed + 1 → a ≤ t → t < a + n →
      t + 1 - a ≤ AmrCfg.ubIdx ((List.range' a n).map cfg.offsetAt) g := by
    intro a n
    induction n generalizing a with
    | zero => intro h1 h2 h3; omega
    | succ m ih =>
      intro h1 h2 h3
      rw [List.range'_succ]
      simp only [List.map_cons, AmrCfg.ubIdx]
      by_cases hga : g < cfg.offsetAt a
      · exfalso
        have hle : cfg.offsetAt a ≤ cfg.offsetAt t := offsetAt_le_mono cfg h2
        omega
      · rw [if_neg hga]
        by_cases hta : t = a
        · omega
        · have := ih (a + 1) (by omega) (by omega) (by omega)
          omega
  have hmain := key 0 (cfg.refLevelMaxAllowed + 1) (by omega) (by omega) (by omega)
  rw [← List.range_eq_range'] at hmain
  have h2 : t + 1 ≤ AmrCfg.ubIdx cfg.offsets g := by
    unfold AmrCfg.offsets
    simpa using hmain
  show t ≤ AmrCfg.ubIdx cfg.offsets g - 1
  omega

/-- Every id produced by getChildren lies at or above the offset one level
below the block's computed level. -/
theorem getChildren_ge (g : Nat) :
    ∀ ch ∈ cfg.getChildren g, cfg.offsetAt (cfg.levelOf g + 1) ≤ ch := by
  intro ch hch
  unfold AmrCfg.getChildren at hch
  by_cases hmax : cfg.refLevelMaxAllowed < (cfg.getIndices g).1 + 1
  · rw [if_pos hmax] at hch
    cases hch
  · rw [if_neg hmax] at hch
    simp only [List.mem_cons, List.not_mem_nil, or_false] at hch
    unfold AmrCfg.levelOf
    rcases hch with h1 | h1 | h1 | h1 | h1 | h1 | h1 | h1 <;>
      rw [h1] <;> exact getGlobalID_ge cfg _ _ _ _

/-- Valid index triple at a level. -/
def ValidIdx (l i j k : Nat) : Prop :=
  l ≤ cfg.refLevelMaxAllowed ∧ i < cfg.Nx l ∧ j < cfg.Ny l ∧ k < cfg.Nz l

/-- Explicit form of getChildren on a valid block below the maximum level. -/
theorem getChildren_eq (h : cfg.Ok) {l i j k : Nat}
    (hl : l < cfg.refLevelMaxAllowed)
    (hi : i < cfg.Nx l) (hj : j < cfg.Ny l) (hk : k < cfg.Nz l) :
    cfg.getChildren (cfg.getGlobalID l i j k) =
      [cfg.getGlobalID (l + 1) (2 * i) (2 * j) (2 * k),
       cfg.getGlobalID (l + 1) (2 * i + 1) (2 * j) (2 * k),
       cfg.getGlobalID (l + 1) (2 * i) (2 * j + 1) (2 * k),
       cfg.getGlobalID (l + 1) (2 * i + 1) (2 * j + 1) (2 * k),
       cfg.getGlobalID (l + 1) (2 * i) (2 * j) (2 * k + 1),
       cfg.getGlobalID (l + 1) (2 * i + 1) (2 * j) (2 * k + 1),
       cfg.getGlobalID (l + 1) (2 * i) (2 * j + 1) (2 * k + 1),
       cfg.getGlobalID (l + 1) (2 * i + 1) (2 * j + 1) (2 * k + 1)] := by
  have ht := getIndices_getGlobalID cfg h (le_of_lt hl) hi hj hk
  have hNN := NNN_lt cfg h (show l + 1 ≤ cfg.refLevelMaxAllowed by omega)
  have hx2 : cfg.Nx (l + 1) = 2 * cfg.Nx l := by
    unfold AmrCfg.Nx; rw [pow_succ]; ring
  have hy2 : cfg.Ny (l + 1) = 2 * cfg.Ny l := by
    unfold AmrCfg.Ny; rw [pow_succ]; ring
  have hz2 : cfg.Nz (l + 1) = 2 * cfg.Nz l := by
    unfold AmrCfg.Nz; rw [pow_succ]; ring
  have hxNNN := Nx_le_NNN cfg h (l + 1)
  have hyNNN := Ny_le_NNN cfg h (l + 1)
  have hzNNN := Nz_le_NNN cfg h (l + 1)
  have hmi : mul32 i 2 = 2 * i := by
    unfold mul32; rw [Nat.mod_eq_of_lt]; · ring
    omega
  have hmj : mul32 j 2 = 2 * j := by
    unfold mul32; rw [Nat.mod_eq_of_lt]; · ring
    omega
  have hmk : mul32 k 2 = 2 * k := by
    unfold mul32; rw [Nat.mod_eq_of_lt]; · ring
    omega
  have hai : add32 (2 * i) 1 = 2 * i + 1 := by
    unfold add32; rw [Nat.mod_eq_of_lt]; omega
  have haj : add32 (2 * j) 1 = 2 * j + 1 := by
    unfold add32; rw [Nat.mod_eq_of_lt]; omega
  have hak : add32 (2 * k) 1 = 2 * k + 1 := by
    unfold add32; rw [Nat.mod_eq_of_lt]; omega
  unfold AmrCfg.getChildren
  rw [ht]
  simp only []
  rw [if_neg (by omega)]
  rw [hmi, hmj, hmk, hai, haj, hak]

/-- Child index bounds: doubling plus a one-bit offset stays in the next
level's grid. -/
theorem child_bounds (h : cfg.Ok) {l i j k a b d : Nat}
    (hi : i < cfg.Nx l) (hj : j < cfg.Ny l) (hk : k < cfg.Nz l)
    (ha : a ≤ 1) (hb : b ≤ 1) (hd : d ≤ 1) :
    2 * i + a < cfg.Nx (l + 1) ∧ 2 * j + b < cfg.Ny (l + 1) ∧
      2 * k + d < cfg.Nz (l + 1) := by
  have hx2 : cfg.Nx (l + 1) = 2 * cfg.Nx l := by
    unfold AmrCfg.Nx; rw [pow_succ]; ring
  have hy2 : cfg.Ny (l + 1) = 2 * cfg.Ny l := by
    unfold AmrCfg.Ny; rw [pow_succ]; ring
  have hz2 : cfg.Nz (l + 1) = 2 * cfg.Nz l := by
    unfold AmrCfg.Nz; rw [pow_succ]; ring
  omega

/-- getParent of a child id recovers the block id. -/
theorem getParent_child (h : cfg.Ok) {l i j k a b d : Nat}
    (hl : l < cfg.refLevelMaxAllowed)
    (hi : i < cfg.Nx l) (hj : j < cfg.Ny l) (hk : k < cfg.Nz l)
    (ha : a ≤ 1) (hb : b ≤ 1) (hd : d ≤ 1) :
    cfg.getParent (cfg.getGlobalID (l + 1) (2 * i + a) (2 * j + b) (2 * k + d)) =
      cfg.getGlobalID l i j k := by
  obtain ⟨hbi, hbj, hbk⟩ := child_bounds cfg h hi hj hk ha hb hd
  have ht := getIndices_getGlobalID cfg h (show l + 1 ≤ cfg.refLevelMaxAllowed by omega)
    hbi hbj hbk
  unfold AmrCfg.getParent
  rw [ht]
  simp only []
  rw [if_neg (by omega)]
  have e1 : (2 * i + a) / 2 = i := by omega
  have e2 : (2 * j + b) / 2 = j := by omega
  have e3 : (2 * k + d) / 2 = k := by omega
  rw [e1, e2, e3]
  congr 1

/-- getSiblings of a child id is exactly the block's child list, in the
same order. -/
theorem getSiblings_child (h : cfg.Ok) {l i j k a b d : Nat}
    (hl : l < cfg.refLevelMaxAllowed)
    (hi : i < cfg.Nx l) (hj : j < cfg.Ny l) (hk : k < cfg.Nz l)
    (ha : a ≤ 1) (hb : b ≤ 1) (hd : d ≤ 1) :
    cfg.getSiblings (cfg.getGlobalID (l + 1) (2 * i + a) (2 * j + b) (2 * k + d)) =
      cfg.getChildren (cfg.getGlobalID l i j k) := by
  obtain ⟨hbi, hbj, hbk⟩ := child_bounds cfg h hi hj hk ha hb hd
  have ht := getIndices_getGlobalID cfg h (show l + 1 ≤ cfg.refLevelMaxAllowed by omega)
    hbi hbj hbk
  have hch := getChildren_eq cfg h hl hi hj hk
  have hNN := NNN_lt cfg h (show l + 1 ≤ cfg.refLevelMaxAllowed by omega)
  have hxNNN := Nx_le_NNN cfg h (l + 1)
  have hyNNN := Ny_le_NNN cfg h (l + 1)
  have hzNNN := Nz_le_NNN cfg h (l + 1)
  have e1 : 2 * i + a - (2 * i + a) % 2 = 2 * i := by omega
  have e2 : 2 * j + b - (2 * j + b) % 2 = 2 * j := by omega
  have e3 : 2 * k + d - (2 * k + d) % 2 = 2 * k := by omega
  have hai : add32 (2 * i) 1 = 2 * i + 1 := by
    unfold add32; rw [Nat.mod_eq_of_lt]; omega
  have haj : add32 (2 * j) 1 = 2 * j + 1 := by
    unfold add32; rw [Nat.mod_eq_of_lt]; omega
  have hak : add32 (2 * k) 1 = 2 * k + 1 := by
    unfold add32; rw [Nat.mod_eq_of_lt]; omega
  unfold AmrCfg.getSiblings
  rw [ht]
  simp only []
  rw [e1, e2, e3, hai, haj, hak, hch]

/-- Children with different one-bit offsets are distinct ids. -/
theorem child_ne (h : cfg.Ok) {l i j k : Nat}
    (hl : l < cfg.refLevelMaxAllowed)
    (hi : i < cfg.Nx l) (hj : j < cfg.Ny l) (hk : k < cfg.Nz l)
    (a b d a2 b2 d2 : Nat) (ha : a ≤ 1) (hb : b ≤ 1) (hd : d ≤ 1)
    (ha2 : a2 ≤ 1) (hb2 : b2 ≤ 1) (hd2 : d2 ≤ 1)
    (hne : ¬(a = a2 ∧ b = b2 ∧ d = d2)) :
    cfg.getGlobalID (l + 1) (2 * i + a) (2 * j + b) (2 * k + d) ≠
      cfg.getGlobalID (l + 1) (2 * i + a2) (2 * j + b2) (2 * k + d2) := by
  intro heq
  obtain ⟨q1, q2, q3⟩ := child_bounds cfg h hi hj hk ha hb hd
  obtain ⟨r1, r2, r3⟩ := child_bounds cfg h hi hj hk ha2 hb2 hd2
  have := getGlobalID_inj cfg h (show l + 1 ≤ cfg.refLevelMaxAllowed by omega)
    q1 q2 q3 (show l + 1 ≤ cfg.refLevelMaxAllowed by omega) r1 r2 r3 heq
  omega

/-- The eight children of a valid block are pairwise distinct. -/
theorem getChildren_nodup (cfg : AmrCfg) (h : cfg.Ok) {l i j k : Nat}
    (hl : l < cfg.refLevelMaxAllowed)
    (hi : i < cfg.Nx l) (hj : j < cfg.Ny l) (hk : k < cfg.Nz l) :
    (cfg.getChildren (cfg.getGlobalID l i j k)).Nodup := by
  have hform : cfg.getChildren (cfg.getGlobalID l i j k) =
      ([(0, 0, 0), (1, 0, 0), (0, 1, 0), (1, 1, 0),
        (0, 0, 1), (1, 0, 1), (0, 1, 1), (1, 1, 1)] : List (Nat × Nat × Nat)).map
        (fun t => cfg.getGlobalID (l + 1) (2 * i + t.1) (2 * j + t.2.1) (2 * k + t.2.2)) := by
    rw [getChildren_eq cfg h hl hi hj hk]
    simp
  rw [hform]
  have hmem : ∀ p : Nat × Nat × Nat,
      p ∈ ([(0, 0, 0), (1, 0, 0), (0, 1, 0), (1, 1, 0),
        (0, 0, 1), (1, 0, 1), (0, 1, 1), (1, 1, 1)] : List (Nat × Nat × Nat)) →
      p.1 ≤ 1 ∧ p.2.1 ≤ 1 ∧ p.2.2 ≤ 1 := by decide
  refine List.Nodup.map_on ?_ (by decide)
  intro t1 ht1 t2 ht2 heq
  obtain ⟨hb1, hb2, hb3⟩ := hmem t1 ht1
  obtain ⟨hc1, hc2, hc3⟩ := hmem t2 ht2
  obtain ⟨q1, q2, q3⟩ := child_bounds cfg h hi hj hk hb1 hb2 hb3
  obtain ⟨r1, r2, r3⟩ := child_bounds cfg h hi hj hk hc1 hc2 hc3
  have hinj := getGlobalID_inj cfg h (show l + 1 ≤ cfg.refLevelMaxAllowed by omega)
    q1 q2 q3 (show l + 1 ≤ cfg.refLevelMaxAllowed by omega) r1 r2 r3 heq
  obtain ⟨t1a, t1b, t1c⟩ := t1
  obtain ⟨t2a, t2b, t2c⟩ := t2
  simp only [Prod.mk.injEq]
  simp only [] at hinj
  omega

end Geometry

/-! ## Map and list helper lemmas for refine / coarsen -/

section MapLemmas

theorem isNone_ne_true_of_isSome {o : Option Nat} (ho : o.isSome) : ¬o.isNone = true := by
  rcases o with _ | v
  · cases ho
  · simp

theorem insertNoOv_isSome (m : Mesh) (g lid x : Nat) :
    (insertNoOv m g lid x).isSome ↔ x = g ∨ (m x).isSome := by
  unfold insertNoOv
  by_cases hx : x = g <;> simp [hx]

theorem insertNoOv_present (m : Mesh) (g lid x : Nat) (hx : (m x).isSome) :
    insertNoOv m g lid x = m x := by
  unfold insertNoOv
  by_cases hxg : x = g
  · subst hxg
    rcases Option.isSome_iff_exists.mp hx with ⟨v, hv⟩
    simp [hv]
  · simp [hxg]

theorem foldl_eraseKey_apply (l : List Nat) (m : Mesh) (x : Nat) :
    (l.foldl eraseKey m) x = if x ∈ l then none else m x := by
  induction l generalizing m with
  | nil => simp
  | cons s rest ih =>
    simp only [List.foldl_cons, List.mem_cons]
    rw [ih]
    by_cases hxs : x = s
    · subst hxs
      by_cases hxr : x ∈ rest <;> simp [hxr, eraseKey_self]
    · by_cases hxr : x ∈ rest
      · simp [hxr, hxs]
      · simp [hxr, hxs, eraseKey_other m s x hxs]

theorem eraseSibs_all_present (l : List Nat) (m : Mesh) (hnd : l.Nodup)
    (hall : ∀ s ∈ l, (m s).isSome) :
    eraseSibs m l = some (l.foldl eraseKey m) := by
  induction l generalizing m with
  | nil => rfl
  | cons s rest ih =>
    have hs := hall s (by simp)
    unfold eraseSibs
    rw [if_pos hs]
    simp only [List.foldl_cons]
    apply ih
    · exact (List.nodup_cons.mp hnd).2
    · intro x hx
      have hxs : x ≠ s := by
        intro he; subst he
        exact (List.nodup_cons.mp hnd).1 hx
      rw [eraseKey_other m s x hxs]
      exact hall x (by simp [hx])

end MapLemmas

section RefineLemmas

variable (cfg : AmrCfg)

/-- Every id produced by getSiblingNeighbors lies at or above the offset of
the block's computed level. -/
theorem getSiblingNeighbors_ge (g : Nat) :
    ∀ nb ∈ cfg.getSiblingNeighbors g, cfg.offsetAt (cfg.levelOf g) ≤ nb := by
  intro nb hnb
  unfold AmrCfg.getSiblingNeighbors at hnb
  simp only [List.mem_flatMap] at hnb
  obtain ⟨koff, _, joff, _, ioff, _, hmem⟩ := hnb
  by_cases hc : (0 ≤ ioff ∧ ioff ≤ 1) ∧ (0 ≤ joff ∧ joff ≤ 1) ∧ (0 ≤ koff ∧ koff ≤ 1)
  · rw [if_pos hc] at hmem; cases hmem
  · rw [if_neg hc] at hmem
    simp only [List.mem_singleton] at hmem
    rw [hmem]
    exact getGlobalID_ge cfg _ _ _ _

/-- Every member of getNeighbors of a valid block is a valid same-level id;
the source's own wrap-clipping checks supply the bounds. -/
theorem getNeighbors_mem_valid (h : cfg.Ok) {l i j k : Nat}
    (hl : l ≤ cfg.refLevelMaxAllowed)
    (hi : i < cfg.Nx l) (hj : j < cfg.Ny l) (hk : k < cfg.Nz l) :
    ∀ n ∈ cfg.getNeighbors (cfg.getGlobalID l i j k),
      ∃ i2 j2 k2 : Nat, i2 < cfg.Nx l ∧ j2 < cfg.Ny l ∧ k2 < cfg.Nz l ∧
        n = cfg.getGlobalID l i2 j2 k2 := by
  intro n hn
  have ht := getIndices_getGlobalID cfg h hl hi hj hk
  unfold AmrCfg.getNeighbors at hn
  rw [ht] at hn
  simp only [List.mem_flatMap] at hn
  obtain ⟨koff, _, hn⟩ := hn
  by_cases hkc : cfg.Nz l ≤ u32ofInt ((k : Int) + koff)
  · rw [if_pos hkc] at hn; cases hn
  · rw [if_neg hkc] at hn
    simp only [List.mem_flatMap] at hn
    obtain ⟨joff, _, hn⟩ := hn
    by_cases hjc : cfg.Ny l ≤ u32ofInt ((j : Int) + joff)
    · rw [if_pos hjc] at hn; cases hn
    · rw [if_neg hjc] at hn
      simp only [List.mem_flatMap] at hn
      obtain ⟨ioff, _, hn⟩ := hn
      by_cases hic : cfg.Nx l ≤ u32ofInt ((i : Int) + ioff)
      · rw [if_pos hic] at hn; cases hn
      · rw [if_neg hic] at hn
        by_cases hz : ioff = 0 ∧ joff = 0 ∧ koff = 0
        · rw [if_pos hz] at hn; cases hn
        · rw [if_neg hz] at hn
          simp only [List.mem_singleton] at hn
          exact ⟨_, _, _, by omega, by omega, by omega, hn⟩

/-- The balance loop does nothing when no neighbor has an existing parent. -/
theorem refineCascade_no_op (cbR : Nat → Nat → Nat → Nat) (fuel : Nat) (m : Mesh)
    (ns : List Nat)
    (hskip : ∀ n ∈ ns, cfg.getParent n = n ∨ m (cfg.getParent n) = none) :
    refineCascade cfg cbR fuel m ns = m := by
  induction ns with
  | nil =>
    unfold refineCascade
    rfl
  | cons n rest ih =>
    unfold refineCascade
    by_cases hpn : cfg.getParent n = n
    · rw [if_pos hpn]
      exact ih fun x hx => hskip x (by simp [hx])
    · rw [if_neg hpn]
      have hp : m (cfg.getParent n) = none := by
        rcases hskip n (by simp) with h1 | h1
        · exact absurd h1 hpn
        · exact h1
      rw [if_neg (by rw [hp]; simp)]
      exact ih fun x hx => hskip x (by simp [hx])

end RefineLemmas

section InsFold

/-- Sequential no-overwrite insertion of key/value pairs. -/
def insFold (ps : List (Nat × Nat)) (m : Mesh) : Mesh :=
  ps.foldl (fun mm p => insertNoOv mm p.1 p.2) m

theorem insFold_not_mem (ps : List (Nat × Nat)) (m : Mesh) (x : Nat)
    (hx : x ∉ ps.map Prod.fst) : insFold ps m x = m x := by
  induction ps generalizing m with
  | nil => rfl
  | cons p rest ih =>
    simp only [List.map_cons, List.mem_cons, not_or] at hx
    unfold insFold
    simp only [List.foldl_cons]
    rw [show (rest.foldl (fun mm q => insertNoOv mm q.1 q.2) (insertNoOv m p.1 p.2)) =
      insFold rest (insertNoOv m p.1 p.2) from rfl]
    rw [ih _ hx.2, insertNoOv_other _ _ _ _ hx.1]

theorem insFold_present (ps : List (Nat × Nat)) (m : Mesh) (x : Nat)
    (hx : (m x).isSome) : insFold ps m x = m x := by
  induction ps generalizing m with
  | nil => rfl
  | cons p rest ih =>
    unfold insFold
    simp only [List.foldl_cons]
    rw [show (rest.foldl (fun mm q => insertNoOv mm q.1 q.2) (insertNoOv m p.1 p.2)) =
      insFold rest (insertNoOv m p.1 p.2) from rfl]
    have hpres : (insertNoOv m p.1 p.2 x).isSome := by
      rw [insertNoOv_isSome]; right; exact hx
    rw [ih _ hpres, insertNoOv_present _ _ _ _ hx]

theorem insFold_mem (ps : List (Nat × Nat)) (m : Mesh) (x : Nat)
    (hx : x ∈ ps.map Prod.fst) : (insFold ps m x).isSome := by
  induction ps generalizing m with
  | nil => cases hx
  | cons p rest ih =>
    simp only [List.map_cons, List.mem_cons] at hx
    unfold insFold
    simp only [List.foldl_cons]
    rw [show (rest.foldl (fun mm q => insertNoOv mm q.1 q.2) (insertNoOv m p.1 p.2)) =
      insFold rest (insertNoOv m p.1 p.2) from rfl]
    rcases hx with hx | hx
    · by_cases hr : x ∈ rest.map Prod.fst
      · exact ih _ hr
      · rw [insFold_not_mem _ _ _ hr, hx]
        exact insertNoOv_self m p.1 p.2
    · exact ih _ hx

end InsFold

namespace AmrCfg

variable (cfg : AmrCfg)

/-- The eight child ids as AmrMesh::refine composes them before inserting
(no maximum-level guard: refine checks the level separately). -/
def refineKeys (g : Nat) : List Nat :=
  let t := cfg.getIndices g
  let l := t.1 + 1
  let i := mul32 t.2.1 2
  let j := mul32 t.2.2.1 2
  let k := mul32 t.2.2.2 2
  [cfg.getGlobalID l i j k,
   cfg.getGlobalID l (add32 i 1) j k,
   cfg.getGlobalID l i (add32 j 1) k,
   cfg.getGlobalID l (add32 i 1) (add32 j 1) k,
   cfg.getGlobalID l i j (add32 k 1),
   cfg.getGlobalID l (add32 i 1) j (add32 k 1),
   cfg.getGlobalID l i (add32 j 1) (add32 k 1),
   cfg.getGlobalID l (add32 i 1) (add32 j 1) (add32 k 1)]

end AmrCfg

section RefineInsertedLemmas

variable (cfg : AmrCfg) (cbR : Nat → Nat → Nat → Nat)

/-- The refine mutation is the insertion fold of the eight keyed children
over the parent-erased map. -/
theorem refineInserted_eq_insFold (m : Mesh) (g : Nat) :
    refineInserted cfg cbR m g =
      insFold ((cfg.refineKeys g).zip
        ((List.range 8).map (cbR g ((m g).getD 0)))) (eraseKey m g) := rfl

/-- Whenever the level guard of refine holds, the keys refine inserts are
exactly getChildren. -/
theorem refineKeys_eq_getChildren (g : Nat)
    (hg : ¬cfg.refLevelMaxAllowed < (cfg.getIndices g).1 + 1) :
    cfg.refineKeys g = cfg.getChildren g := by
  unfold AmrCfg.refineKeys AmrCfg.getChildren
  rw [if_neg hg]

theorem refineKeys_map_fst (m : Mesh) (g : Nat) :
    ((cfg.refineKeys g).zip ((List.range 8).map (cbR g ((m g).getD 0)))).map Prod.fst =
      cfg.refineKeys g := by
  apply List.map_fst_zip
  simp [AmrCfg.refineKeys]

/-- refineInserted leaves untouched every id other than the parent and the
eight child keys. -/
theorem refineInserted_other (m : Mesh) (g x : Nat) (hxg : x ≠ g)
    (hxc : x ∉ cfg.refineKeys g) :
    refineInserted cfg cbR m g x = m x := by
  rw [refineInserted_eq_insFold]
  rw [insFold_not_mem]
  · exact eraseKey_other m g x hxg
  · rw [refineKeys_map_fst]
    exact hxc

/-- refineInserted keeps every present id other than the parent unchanged
(insertion does not overwrite). -/
theorem refineInserted_present (m : Mesh) (g x : Nat) (hxg : x ≠ g)
    (hx : (m x).isSome) :
    refineInserted cfg cbR m g x = m x := by
  rw [refineInserted_eq_insFold]
  have : (eraseKey m g x).isSome := by rw [eraseKey_other m g x hxg]; exact hx
  rw [insFold_present _ _ _ this, eraseKey_other m g x hxg]

/-- All eight child keys are present after refineInserted. -/
theorem refineInserted_child (m : Mesh) (g x : Nat) (hx : x ∈ cfg.refineKeys g) :
    (refineInserted cfg cbR m g x).isSome := by
  rw [refineInserted_eq_insFold]
  apply insFold_mem
  rw [refineKeys_map_fst]
  exact hx

/-- The parent is absent after refineInserted, provided it is not itself
one of the eight child keys. -/
theorem refineInserted_parent_none (m : Mesh) (g : Nat)
    (hg : g ∉ cfg.refineKeys g) :
    refineInserted cfg cbR m g g = none := by
  rw [refineInserted_eq_insFold]
  rw [insFold_not_mem]
  · exact eraseKey_self m g
  · rw [refineKeys_map_fst]
    exact hg

end RefineInsertedLemmas

section RefineShape

variable (cfg : AmrCfg) (cbR : Nat → Nat → Nat → Nat)

/-- Shape of a successful refine: flag true, and the result map is the
balance loop applied to the erase-parent/insert-children mutation. -/
theorem refine_succ (m : Mesh) (g : Nat) (hpres : (m g).isSome)
    (hlev : (cfg.getIndices g).1 ≠ cfg.refLevelMaxAllowed) :
    refine cfg cbR m g =
      (true, refineCascade cfg cbR cfg.refLevelMaxAllowed
        (refineInserted cfg cbR m g) (cfg.getNeighbors g)) := by
  unfold refine
  show refineGo cfg cbR (cfg.refLevelMaxAllowed + 1) m g = _
  unfold refineGo
  rw [if_neg (isNone_ne_true_of_isSome hpres)]
  show (if (cfg.getIndices g).1 = cfg.refLevelMaxAllowed then (false, m)
    else (true, refineCascade cfg cbR cfg.refLevelMaxAllowed
      (refineInserted cfg cbR m g) (cfg.getNeighbors g))) = _
  rw [if_neg hlev]

end RefineShape

section ClaimC5

/-- C5 counterexample mesh parameters: 1x1x1 base grid, three levels. -/
def c5cfg : AmrCfg := ⟨1, 1, 1, 3⟩

/-- C5 counterexample mesh: the level-1 block 1 and the level-3 block 77.
Block 77 is a child of the level-2 block 11, which is a sibling-octet
neighbor of the children of block 1. -/
def c5mesh : Mesh := fun g => if g = 1 then some 0 else if g = 77 then some 0 else none

/-- C5 (amended): let id be a leaf at level 0 < l < maxRefinementLevel
whose 8 children are absent, such that refine triggers no balancing
side-refinement (no neighbor of id has an existing parent), and such that
no sibling-octet neighbor of the inserted children has a child in the
mapping (the coarsening precondition; on a 2:1-balanced mesh this always
holds). Then refine(id) succeeds, and coarsen applied to any of the 8
inserted children succeeds and restores the mapping to the original key
set: id is back (the LocalID is whatever the coarsen callback returns), the
children are gone, and every other id is untouched. -/
theorem C5_refine_coarsen_roundtrip (cfg : AmrCfg)
    (cbR : Nat → Nat → Nat → Nat) (cbC : List Nat → List Nat → Nat → Nat)
    (m : Mesh) (l i j k : Nat) (h : cfg.Ok)
    (hl0 : 0 < l) (hlmax : l < cfg.refLevelMaxAllowed)
    (hi : i < cfg.Nx l) (hj : j < cfg.Ny l) (hk : k < cfg.Nz l)
    (hm : (m (cfg.getGlobalID l i j k)).isSome)
    (hkids : ∀ c ∈ cfg.getChildren (cfg.getGlobalID l i j k), m c = none)
    (hnocasc : ∀ n ∈ cfg.getNeighbors (cfg.getGlobalID l i j k),
      cfg.getParent n ≠ n → m (cfg.getParent n) = none)
    (hoct : ∀ c ∈ cfg.getChildren (cfg.getGlobalID l i j k),
      ∀ nb ∈ cfg.getSiblingNeighbors c, ∀ ch ∈ cfg.getChildren nb, m ch = none) :
    (refine cfg cbR m (cfg.getGlobalID l i j k)).1 = true ∧
    ∀ c ∈ cfg.getChildren (cfg.getGlobalID l i j k),
      ∃ mf : Mesh,
        coarsen cfg cbC (refine cfg cbR m (cfg.getGlobalID l i j k)).2 c =
          some (true, mf) ∧
        ∀ x, (mf x).isSome = (m x).isSome := by
  have hlle : l ≤ cfg.refLevelMaxAllowed := le_of_lt hlmax
  have ht := getIndices_getGlobalID cfg h hlle hi hj hk
  have hguard : ¬cfg.refLevelMaxAllowed <
      (cfg.getIndices (cfg.getGlobalID l i j k)).1 + 1 := by rw [ht]; simp; omega
  have hkeys := refineKeys_eq_getChildren cfg (cfg.getGlobalID l i j k) hguard
  have hchl := getChildren_eq cfg h hlmax hi hj hk
  have hmem : ∀ c ∈ cfg.getChildren (cfg.getGlobalID l i j k),
      ∃ a b d : Nat, a ≤ 1 ∧ b ≤ 1 ∧ d ≤ 1 ∧
        c = cfg.getGlobalID (l + 1) (2 * i + a) (2 * j + b) (2 * k + d) := by
    intro c hc
    rw [hchl] at hc
    simp only [List.mem_cons, List.not_mem_nil, or_false] at hc
    rcases hc with rfl | rfl | rfl | rfl | rfl | rfl | rfl | rfl
    · exact ⟨0, 0, 0, by omega, by omega, by omega, by norm_num⟩
    · exact ⟨1, 0, 0, by omega, by omega, by omega, by norm_num⟩
    · exact ⟨0, 1, 0, by omega, by omega, by omega, by norm_num⟩
    · exact ⟨1, 1, 0, by omega, by omega, by omega, by norm_num⟩
    · exact ⟨0, 0, 1, by omega, by omega, by omega, by norm_num⟩
    · exact ⟨1, 0, 1, by omega, by omega, by omega, by norm_num⟩
    · exact ⟨0, 1, 1, by omega, by omega, by omega, by norm_num⟩
    · exact ⟨1, 1, 1, by omega, by omega, by omega, by norm_num⟩
  have hg_lt : cfg.getGlobalID l i j k < cfg.offsetAt (l + 1) :=
    getGlobalID_lt_succ cfg h hlle hi hj hk
  have hkey_lt : ∀ x ∈ cfg.refineKeys (cfg.getGlobalID l i j k),
      x < cfg.offsetAt (l + 2) := by
    rw [hkeys]
    intro x hx
    obtain ⟨a2, b2, d2, ha2, hb2, hd2, rfl⟩ := hmem x hx
    obtain ⟨q1, q2, q3⟩ := child_bounds cfg h hi hj hk ha2 hb2 hd2
    exact getGlobalID_lt_succ cfg h (by omega) q1 q2 q3
  have hkey_ge : ∀ x ∈ cfg.refineKeys (cfg.getGlobalID l i j k),
      cfg.offsetAt (l + 1) ≤ x := by
    rw [hkeys]
    intro x hx
    obtain ⟨a2, b2, d2, ha2, hb2, hd2, rfl⟩ := hmem x hx
    exact getGlobalID_ge cfg _ _ _ _
  have hnb := getNeighbors_mem_valid cfg h hlle hi hj hk
  -- the balance loop does nothing
  have hcasc : refineCascade cfg cbR cfg.refLevelMaxAllowed
      (refineInserted cfg cbR m (cfg.getGlobalID l i j k))
      (cfg.getNeighbors (cfg.getGlobalID l i j k)) =
      refineInserted cfg cbR m (cfg.getGlobalID l i j k) := by
    apply refineCascade_no_op
    intro n hn
    by_cases hpn : cfg.getParent n = n
    · left; exact hpn
    · right
      obtain ⟨i2, j2, k2, hi2, hj2, hk2, rfl⟩ := hnb n hn
      have htn := getIndices_getGlobalID cfg h hlle hi2 hj2 hk2
      have hparent : cfg.getParent (cfg.getGlobalID l i2 j2 k2) =
          cfg.getGlobalID (l - 1) (i2 / 2) (j2 / 2) (k2 / 2) := by
        unfold AmrCfg.getParent
        rw [htn]
        simp only []
        rw [if_neg (by omega)]
      have hl1 : l - 1 + 1 = l := by omega
      have hpb : i2 / 2 < cfg.Nx (l - 1) ∧ j2 / 2 < cfg.Ny (l - 1) ∧
          k2 / 2 < cfg.Nz (l - 1) := by
        have hx2 : cfg.Nx l = 2 * cfg.Nx (l - 1) := by
          calc cfg.Nx l = cfg.Nx (l - 1 + 1) := by rw [hl1]
            _ = 2 * cfg.Nx (l - 1) := by unfold AmrCfg.Nx; rw [pow_succ]; ring
        have hy2 : cfg.Ny l = 2 * cfg.Ny (l - 1) := by
          calc cfg.Ny l = cfg.Ny (l - 1 + 1) := by rw [hl1]
            _ = 2 * cfg.Ny (l - 1) := by unfold AmrCfg.Ny; rw [pow_succ]; ring
        have hz2 : cfg.Nz l = 2 * cfg.Nz (l - 1) := by
          calc cfg.Nz l = cfg.Nz (l - 1 + 1) := by rw [hl1]
            _ = 2 * cfg.Nz (l - 1) := by unfold AmrCfg.Nz; rw [pow_succ]; ring
        omega
      have hp_lt : cfg.getParent (cfg.getGlobalID l i2 j2 k2) < cfg.offsetAt l := by
        rw [hparent]
        have := getGlobalID_lt_succ cfg h (show l - 1 ≤ cfg.refLevelMaxAllowed by omega)
          hpb.1 hpb.2.1 hpb.2.2
        rw [hl1] at this
        exact this
      have hne1 : cfg.getParent (cfg.getGlobalID l i2 j2 k2) ≠ cfg.getGlobalID l i j k := by
        have := getGlobalID_ge cfg l i j k
        omega
      have hne2 : cfg.getParent (cfg.getGlobalID l i2 j2 k2) ∉
          cfg.refineKeys (cfg.getGlobalID l i j k) := by
        intro hx
        have h1 := hkey_ge _ hx
        have h2 : cfg.offsetAt l ≤ cfg.offsetAt (l + 1) := offsetAt_le_mono cfg (by omega)
        omega
      rw [refineInserted_other cfg cbR m _ _ hne1 hne2]
      exact hnocasc _ hn hpn
  have hrs := refine_succ cfg cbR m (cfg.getGlobalID l i j k) hm
    (by rw [ht]; simp; omega)
  constructor
  · rw [hrs]
  intro c hc
  obtain ⟨a, b, d, ha, hb, hd, hceq⟩ := hmem c hc
  obtain ⟨q1, q2, q3⟩ := child_bounds cfg h hi hj hk ha hb hd
  have htc : cfg.getIndices c = (l + 1, 2 * i + a, 2 * j + b, 2 * k + d) := by
    rw [hceq]
    exact getIndices_getGlobalID cfg h (by omega) q1 q2 q3
  have hm9c : (refineInserted cfg cbR m (cfg.getGlobalID l i j k) c).isSome := by
    apply refineInserted_child
    rw [hkeys]
    exact hc
  have hsibs : cfg.getSiblings c = cfg.getChildren (cfg.getGlobalID l i j k) := by
    rw [hceq]
    exact getSiblings_child cfg h hlmax hi hj hk ha hb hd
  have hnodup := getChildren_nodup cfg h hlmax hi hj hk
  -- octet-neighbor children are untouched and absent
  have hany1 : (cfg.getSiblingNeighbors c).any
      (fun n => (cfg.getChildren n).any fun ch =>
        (refineInserted cfg cbR m (cfg.getGlobalID l i j k) ch).isSome) = false := by
    rw [List.any_eq_false]
    intro nb hnb2
    show ¬((cfg.getChildren nb).any fun ch =>
      (refineInserted cfg cbR m (cfg.getGlobalID l i j k) ch).isSome) = true
    rw [Bool.not_eq_true, List.any_eq_false]
    intro ch hch2
    show ¬(refineInserted cfg cbR m (cfg.getGlobalID l i j k) ch).isSome = true
    have h1 : cfg.offsetAt (cfg.levelOf c) ≤ nb := getSiblingNeighbors_ge cfg c nb hnb2
    have hlvc : cfg.levelOf c = l + 1 := by
      unfold AmrCfg.levelOf; rw [htc]
    have h2 : l + 1 ≤ cfg.levelOf nb := by
      apply levelOf_ge cfg h (by omega)
      rw [hlvc] at h1
      exact h1
    have h3 : cfg.offsetAt (cfg.levelOf nb + 1) ≤ ch := getChildren_ge cfg nb ch hch2
    have h4 : cfg.offsetAt (l + 2) ≤ ch :=
      le_trans (offsetAt_le_mono cfg (by omega)) h3
    have hoo : cfg.offsetAt (l + 1) ≤ cfg.offsetAt (l + 2) :=
      offsetAt_le_mono cfg (by omega)
    have hch_ne_g : ch ≠ cfg.getGlobalID l i j k := by omega
    have hch_notin : ch ∉ cfg.refineKeys (cfg.getGlobalID l i j k) := by
      intro hx
      have := hkey_lt ch hx
      omega
    rw [refineInserted_other cfg cbR m _ _ hch_ne_g hch_notin]
    rw [hoct c hc nb hnb2 ch hch2]
    simp
  have hany2 : (cfg.getSiblings c).any
      (fun s => (refineInserted cfg cbR m (cfg.getGlobalID l i j k) s).isNone) = false := by
    rw [List.any_eq_false]
    intro s hs
    show ¬(refineInserted cfg cbR m (cfg.getGlobalID l i j k) s).isNone = true
    rw [hsibs] at hs
    have : (refineInserted cfg cbR m (cfg.getGlobalID l i j k) s).isSome := by
      apply refineInserted_child
      rw [hkeys]
      exact hs
    exact isNone_ne_true_of_isSome this
  have hparentc : cfg.getParent c = cfg.getGlobalID l i j k := by
    rw [hceq]
    exact getParent_child cfg h hlmax hi hj hk ha hb hd
  have herase : eraseSibs (refineInserted cfg cbR m (cfg.getGlobalID l i j k))
      (cfg.getSiblings c) =
      some ((cfg.getSiblings c).foldl eraseKey
        (refineInserted cfg cbR m (cfg.getGlobalID l i j k))) := by
    apply eraseSibs_all_present
    · rw [hsibs]; exact hnodup
    · intro s hs
      rw [hsibs] at hs
      apply refineInserted_child
      rw [hkeys]
      exact hs
  refine ⟨insertNoOv ((cfg.getSiblings c).foldl eraseKey
      (refineInserted cfg cbR m (cfg.getGlobalID l i j k))) (cfg.getParent c)
      (cbC (cfg.getSiblings c)
        ((cfg.getSiblings c).map fun s =>
          ((refineInserted cfg cbR m (cfg.getGlobalID l i j k)) s).getD INVALID_LOCALID)
        (cfg.getParent c)), ?_, ?_⟩
  · rw [hrs]
    show coarsen cfg cbC (refineCascade cfg cbR cfg.refLevelMaxAllowed
      (refineInserted cfg cbR m (cfg.getGlobalID l i j k))
      (cfg.getNeighbors (cfg.getGlobalID l i j k))) c = _
    rw [hcasc]
    unfold coarsen
    rw [if_neg (isNone_ne_true_of_isSome hm9c)]
    rw [if_neg (by rw [htc]; simp)]
    rw [hany1]
    simp only [Bool.false_eq_true, if_false]
    rw [hany2]
    simp only [Bool.false_eq_true, if_false]
    rw [herase]
  · intro x
    by_cases hxg : x = cfg.getGlobalID l i j k
    · rw [hparentc, hxg]
      have h2 : (m (cfg.getGlobalID l i j k)).isSome = true := hm
      rw [h2]
      exact insertNoOv_self _ _ _
    · have hxg2 : x ≠ cfg.getParent c := by rw [hparentc]; exact hxg
      rw [insertNoOv_other _ _ _ _ hxg2]
      rw [foldl_eraseKey_apply]
      by_cases hxs : x ∈ cfg.getSiblings c
      · rw [if_pos hxs]
        have hmx : m x = none := by
          apply hkids
          rw [← hsibs]
          exact hxs
        rw [hmx]
      · rw [if_neg hxs]
        have hxk : x ∉ cfg.refineKeys (cfg.getGlobalID l i j k) := by
          rw [hkeys, ← hsibs]
          exact hxs
        rw [refineInserted_other cfg cbR m _ _ hxg hxk]

/-- C5 counterexample: on the mesh with the level-1 leaf 1 and the level-3
leaf 77 (which touches the children octet of 1 but none of 1's own
neighbors' parents), block 1 is a leaf at level 1 > 0, refine(1) succeeds
and triggers no balancing side-refinement, yet coarsen on the inserted
child 9 returns false -- octet neighbor 11 has the existing child 77 -- and
the mapping keeps the 8 children instead of the original entry 1. The
round-trip claim fails as stated; a no-deep-neighbor precondition is
required. -/
theorem C5_counterexample :
    c5cfg.levelOf 1 = 1 ∧ (c5mesh 1).isSome ∧
      9 ∈ c5cfg.getChildren 1 ∧
      (∀ n ∈ c5cfg.getNeighbors 1, c5cfg.getParent n ≠ n →
        c5mesh (c5cfg.getParent n) = none) ∧
      refine c5cfg (fun _ _ _ => 0) c5mesh 1 =
        (true, refineInserted c5cfg (fun _ _ _ => 0) c5mesh 1) ∧
      coarsen c5cfg (fun _ _ _ => 0)
          (refineInserted c5cfg (fun _ _ _ => 0) c5mesh 1) 9 =
        some (false, refineInserted c5cfg (fun _ _ _ => 0) c5mesh 1) ∧
      refineInserted c5cfg (fun _ _ _ => 0) c5mesh 1 1 = none := by
  refine ⟨by decide, by decide, by decide, by decide, ?_, ?_, by decide⟩
  · rw [refine_succ c5cfg (fun _ _ _ => 0) c5mesh 1 (by decide) (by decide)]
    rw [refineCascade_no_op c5cfg (fun _ _ _ => 0) c5cfg.refLevelMaxAllowed
      (refineInserted c5cfg (fun _ _ _ => 0) c5mesh 1) (c5cfg.getNeighbors 1) (by decide)]
  · rfl

/-- Mesh parameters for the C5 witness: 1x1x1 base grid, two levels. -/
def c5wcfg : AmrCfg := ⟨1, 1, 1, 2⟩

/-- Mesh for the C5 witness: the single level-1 block 1. -/
def c5wmesh : Mesh := fun g => if g = 1 then some 5 else none

/-- C5 witness: the amended round-trip applied to the single-block mesh. -/
theorem C5_refine_coarsen_roundtrip_witness :
    c5wcfg.Ok ∧
      ((refine c5wcfg (fun _ _ _ => 0) c5wmesh (c5wcfg.getGlobalID 1 0 0 0)).1 = true ∧
      ∀ c ∈ c5wcfg.getChildren (c5wcfg.getGlobalID 1 0 0 0),
        ∃ mf : Mesh,
          coarsen c5wcfg (fun _ _ _ => 0)
              (refine c5wcfg (fun _ _ _ => 0) c5wmesh (c5wcfg.getGlobalID 1 0 0 0)).2 c =
            some (true, mf) ∧
          ∀ x, (mf x).isSome = (c5wmesh x).isSome) :=
  ⟨by decide,
    C5_refine_coarsen_roundtrip c5wcfg (fun _ _ _ => 0) (fun _ _ _ => 0) c5wmesh 1 0 0 0
      (by decide) (by decide) (by decide) (by decide) (by decide) (by decide) (by decide)
      (by decide) (by decide) (by decide)⟩

end ClaimC5

/-! ## Structural invariants of the mesh, for the refine balance claim -/

namespace AmrCfg

variable (cfg : AmrCfg)

/-- Side length of a block of the given level, measured in cells of the
deepest level. -/
def scaleOf (l : Nat) : Nat := 2 ^ (cfg.refLevelMaxAllowed - l)

end AmrCfg

section C2Defs

variable (cfg : AmrCfg)

/-- Every block present in the mapping is a genuine in-bounds address. -/
def ValidMesh (m : Mesh) : Prop :=
  ∀ g, (m g).isSome → ∃ l i j k, l ≤ cfg.refLevelMaxAllowed ∧ i < cfg.Nx l ∧
    j < cfg.Ny l ∧ k < cfg.Nz l ∧ g = cfg.getGlobalID l i j k

/-- p is a strict ancestor of g: a coarser block whose index triple is g's
triple shifted down to p's level. -/
def StrictAnc (p g : Nat) : Prop :=
  cfg.levelOf p < cfg.levelOf g ∧
  (cfg.getIndices p).2.1 = (cfg.getIndices g).2.1 / 2 ^ (cfg.levelOf g - cfg.levelOf p) ∧
  (cfg.getIndices p).2.2.1 = (cfg.getIndices g).2.2.1 / 2 ^ (cfg.levelOf g - cfg.levelOf p) ∧
  (cfg.getIndices p).2.2.2 = (cfg.getIndices g).2.2.2 / 2 ^ (cfg.levelOf g - cfg.levelOf p)

/-- No present block overlaps another: the octree state model of the spec
(absent / leaf / refined) -- a leaf never coexists with an ancestor. -/
def WFMesh (m : Mesh) : Prop :=
  ∀ p g, (m p).isSome → (m g).isSome → ¬StrictAnc cfg p g

/-- Geometric adjacency of two blocks (of any levels): their closed index
boxes, scaled to the deepest level, intersect along every axis. Includes
face, edge and corner contact (and overlap). -/
def Adjacent (a b : Nat) : Prop :=
  a ≠ b ∧
  (cfg.getIndices a).2.1 * cfg.scaleOf (cfg.levelOf a) ≤
    ((cfg.getIndices b).2.1 + 1) * cfg.scaleOf (cfg.levelOf b) ∧
  (cfg.getIndices b).2.1 * cfg.scaleOf (cfg.levelOf b) ≤
    ((cfg.getIndices a).2.1 + 1) * cfg.scaleOf (cfg.levelOf a) ∧
  (cfg.getIndices a).2.2.1 * cfg.scaleOf (cfg.levelOf a) ≤
    ((cfg.getIndices b).2.2.1 + 1) * cfg.scaleOf (cfg.levelOf b) ∧
  (cfg.getIndices b).2.2.1 * cfg.scaleOf (cfg.levelOf b) ≤
    ((cfg.getIndices a).2.2.1 + 1) * cfg.scaleOf (cfg.levelOf a) ∧
  (cfg.getIndices a).2.2.2 * cfg.scaleOf (cfg.levelOf a) ≤
    ((cfg.getIndices b).2.2.2 + 1) * cfg.scaleOf (cfg.levelOf b) ∧
  (cfg.getIndices b).2.2.2 * cfg.scaleOf (cfg.levelOf b) ≤
    ((cfg.getIndices a).2.2.2 + 1) * cfg.scaleOf (cfg.levelOf a)

/-- The 2:1 balance invariant: adjacent present blocks differ by at most
one refinement level. -/
def Balanced21 (m : Mesh) : Prop :=
  ∀ a b, (m a).isSome → (m b).isSome → Adjacent cfg a b →
    cfg.levelOf a ≤ cfg.levelOf b + 1

end C2Defs

section C2Arith

variable (cfg : AmrCfg)

theorem child_div_pow (x a t : Nat) (ha : a ≤ 1) (ht : 1 ≤ t) :
    (2 * x + a) / 2 ^ t = x / 2 ^ (t - 1) := by
  have he : (2 : Nat) ^ t = 2 * 2 ^ (t - 1) := by
    conv_lhs => rw [show t = (t - 1) + 1 by omega]
    rw [pow_succ]
    ring
  rw [he, ← Nat.div_div_eq_div_mul]
  have h2 : (2 * x + a) / 2 = x := by omega
  rw [h2]

/-- Members of refineKeys of a valid sub-maximal block, decomposed. -/
theorem refineKeys_mem (h : cfg.Ok) {l i j k : Nat}
    (hlmax : l < cfg.refLevelMaxAllowed)
    (hi : i < cfg.Nx l) (hj : j < cfg.Ny l) (hk : k < cfg.Nz l) :
    ∀ c ∈ cfg.refineKeys (cfg.getGlobalID l i j k),
      ∃ a b d : Nat, a ≤ 1 ∧ b ≤ 1 ∧ d ≤ 1 ∧
        c = cfg.getGlobalID (l + 1) (2 * i + a) (2 * j + b) (2 * k + d) := by
  have ht := getIndices_getGlobalID cfg h (le_of_lt hlmax) hi hj hk
  rw [refineKeys_eq_getChildren cfg _ (by rw [ht]; simp; omega)]
  intro c hc
  rw [getChildren_eq cfg h hlmax hi hj hk] at hc
  simp only [List.mem_cons, List.not_mem_nil, or_false] at hc
  rcases hc with rfl | rfl | rfl | rfl | rfl | rfl | rfl | rfl
  · exact ⟨0, 0, 0, by omega, by omega, by omega, by norm_num⟩
  · exact ⟨1, 0, 0, by omega, by omega, by omega, by norm_num⟩
  · exact ⟨0, 1, 0, by omega, by omega, by omega, by norm_num⟩
  · exact ⟨1, 1, 0, by omega, by omega, by omega, by norm_num⟩
  · exact ⟨0, 0, 1, by omega, by omega, by omega, by norm_num⟩
  · exact ⟨1, 0, 1, by omega, by omega, by omega, by norm_num⟩
  · exact ⟨0, 1, 1, by omega, by omega, by omega, by norm_num⟩
  · exact ⟨1, 1, 1, by omega, by omega, by omega, by norm_num⟩

/-- A block is a strict ancestor of each of its children. -/
theorem strictAnc_child (h : cfg.Ok) {l i j k a b d : Nat}
    (hlmax : l < cfg.refLevelMaxAllowed)
    (hi : i < cfg.Nx l) (hj : j < cfg.Ny l) (hk : k < cfg.Nz l)
    (ha : a ≤ 1) (hb : b ≤ 1) (hd : d ≤ 1) :
    StrictAnc cfg (cfg.getGlobalID l i j k)
      (cfg.getGlobalID (l + 1) (2 * i + a) (2 * j + b) (2 * k + d)) := by
  have ht := getIndices_getGlobalID cfg h (le_of_lt hlmax) hi hj hk
  obtain ⟨q1, q2, q3⟩ := child_bounds cfg h hi hj hk ha hb hd
  have htc := getIndices_getGlobalID cfg h (by omega) q1 q2 q3
  unfold StrictAnc AmrCfg.levelOf
  rw [ht, htc]
  simp only []
  refine ⟨by omega, ?_, ?_, ?_⟩ <;>
  · rw [show l + 1 - l = 1 by omega, pow_one]
    omega

end C2Arith

section C2Preservation

variable (cfg : AmrCfg)

theorem eraseKey_isSome (m : Mesh) (g x : Nat) :
    (eraseKey m g x).isSome ↔ (m x).isSome ∧ x ≠ g := by
  unfold eraseKey
  by_cases hx : x = g <;> simp [hx]

theorem insFold_isSome_iff (ps : List (Nat × Nat)) (m : Mesh) (x : Nat) :
    (insFold ps m x).isSome ↔ x ∈ ps.map Prod.fst ∨ (m x).isSome := by
  induction ps generalizing m with
  | nil => simp [insFold]
  | cons p rest ih =>
    unfold insFold
    simp only [List.foldl_cons, List.map_cons, List.mem_cons]
    rw [show (rest.foldl (fun mm q => insertNoOv mm q.1 q.2) (insertNoOv m p.1 p.2)) =
      insFold rest (insertNoOv m p.1 p.2) from rfl]
    rw [ih]
    rw [insertNoOv_isSome]
    tauto

/-- Presence after refineInserted: the eight child keys, plus everything
previously present except the parent. -/
theorem refineInserted_isSome_iff (cbR : Nat → Nat → Nat → Nat) (m : Mesh) (g x : Nat) :
    (refineInserted cfg cbR m g x).isSome ↔
      x ∈ cfg.refineKeys g ∨ ((m x).isSome ∧ x ≠ g) := by
  rw [refineInserted_eq_insFold, insFold_isSome_iff, refineKeys_map_fst, eraseKey_isSome]

/-- refineInserted preserves mesh validity and the no-overlap invariant. -/
theorem refineInserted_V_WF (cbR : Nat → Nat → Nat → Nat) (h : cfg.Ok) (m : Mesh)
    {l i j k : Nat} (hlmax : l < cfg.refLevelMaxAllowed)
    (hi : i < cfg.Nx l) (hj : j < cfg.Ny l) (hk : k < cfg.Nz l)
    (hV : ValidMesh cfg m) (hWF : WFMesh cfg m)
    (hm : (m (cfg.getGlobalID l i j k)).isSome) :
    ValidMesh cfg (refineInserted cfg cbR m (cfg.getGlobalID l i j k)) ∧
      WFMesh cfg (refineInserted cfg cbR m (cfg.getGlobalID l i j k)) := by
  have ht := getIndices_getGlobalID cfg h (le_of_lt hlmax) hi hj hk
  have hkm := refineKeys_mem cfg h hlmax hi hj hk
  constructor
  · intro x hx
    rw [refineInserted_isSome_iff] at hx
    rcases hx with hx | ⟨hx, _⟩
    · obtain ⟨a, b, d, ha, hb, hd, rfl⟩ := hkm x hx
      obtain ⟨q1, q2, q3⟩ := child_bounds cfg h hi hj hk ha hb hd
      exact ⟨l + 1, 2 * i + a, 2 * j + b, 2 * k + d, by omega, q1, q2, q3, rfl⟩
    · exact hV x hx
  · intro p x hp hx hanc
    rw [refineInserted_isSome_iff] at hp hx
    rcases hp with hp | ⟨hp, hpg⟩ <;> rcases hx with hx | ⟨hx, hxg⟩
    · -- both fresh children: same level, no strict ancestry
      obtain ⟨a, b, d, ha, hb, hd, rfl⟩ := hkm p hp
      obtain ⟨a2, b2, d2, ha2, hb2, hd2, rfl⟩ := hkm x hx
      obtain ⟨q1, q2, q3⟩ := child_bounds cfg h hi hj hk ha hb hd
      obtain ⟨r1, r2, r3⟩ := child_bounds cfg h hi hj hk ha2 hb2 hd2
      have h1 := getIndices_getGlobalID cfg h (by omega) q1 q2 q3
      have h2 := getIndices_getGlobalID cfg h (by omega) r1 r2 r3
      have := hanc.1
      unfold AmrCfg.levelOf at this
      rw [h1, h2] at this
      simp at this
    · -- fresh child strict ancestor of an old block: then the parent was too
      obtain ⟨a, b, d, ha, hb, hd, rfl⟩ := hkm p hp
      obtain ⟨lx, xi, xj, xk, hlx, hxi, hxj, hxk, rfl⟩ := hV x hx
      obtain ⟨q1, q2, q3⟩ := child_bounds cfg h hi hj hk ha hb hd
      have h1 := getIndices_getGlobalID cfg h (by omega) q1 q2 q3
      have h2 := getIndices_getGlobalID cfg h hlx hxi hxj hxk
      obtain ⟨hlev, he1, he2, he3⟩ := hanc
      unfold AmrCfg.levelOf at hlev he1 he2 he3
      rw [h1, h2] at hlev he1 he2 he3
      simp only [] at hlev he1 he2 he3
      apply hWF (cfg.getGlobalID l i j k) (cfg.getGlobalID lx xi xj xk) hm hx
      unfold StrictAnc AmrCfg.levelOf
      rw [ht, h2]
      simp only []
      refine ⟨by omega, ?_, ?_, ?_⟩
      · have : xi / 2 ^ (lx - l) = xi / 2 ^ (lx - (l + 1)) / 2 := by
          rw [Nat.div_div_eq_div_mul, ← pow_succ]
          congr 2
          omega
        rw [this, ← he1]
        omega
      · have : xj / 2 ^ (lx - l) = xj / 2 ^ (lx - (l + 1)) / 2 := by
          rw [Nat.div_div_eq_div_mul, ← pow_succ]
          congr 2
          omega
        rw [this, ← he2]
        omega
      · have : xk / 2 ^ (lx - l) = xk / 2 ^ (lx - (l + 1)) / 2 := by
          rw [Nat.div_div_eq_div_mul, ← pow_succ]
          congr 2
          omega
        rw [this, ← he3]
        omega
    · -- an old block strict ancestor of a fresh child
      obtain ⟨lp, pi2, pj2, pk2, hlp, hpi, hpj, hpk, rfl⟩ := hV p hp
      obtain ⟨a, b, d, ha, hb, hd, rfl⟩ := hkm x hx
      obtain ⟨q1, q2, q3⟩ := child_bounds cfg h hi hj hk ha hb hd
      have h1 := getIndices_getGlobalID cfg h hlp hpi hpj hpk
      have h2 := getIndices_getGlobalID cfg h (by omega) q1 q2 q3
      obtain ⟨hlev, he1, he2, he3⟩ := hanc
      unfold AmrCfg.levelOf at hlev he1 he2 he3
      rw [h1, h2] at hlev he1 he2 he3
      simp only [] at hlev he1 he2 he3
      by_cases hll : lp = l
      · -- the ancestor would be the refined parent itself
        subst hll
        rw [show lp + 1 - lp = 1 by omega, pow_one] at he1 he2 he3
        apply hpg
        have : pi2 = i ∧ pj2 = j ∧ pk2 = k := by omega
        rw [this.1, this.2.1, this.2.2]
      · -- a strictly coarser ancestor: it is an ancestor of the parent too
        have hlpl : lp < l := by omega
        apply hWF (cfg.getGlobalID lp pi2 pj2 pk2) (cfg.getGlobalID l i j k) hp hm
        unfold StrictAnc AmrCfg.levelOf
        rw [h1, ht]
        simp only []
        rw [he1, he2, he3]
        refine ⟨by omega, ?_, ?_, ?_⟩ <;>
        · rw [child_div_pow _ _ _ (by omega) (by omega)]
          congr 2
          omega
    · exact hWF p x hp hx hanc

end C2Preservation

/-! ## Shape equations of refineGo / refineCascade -/

section C2Shapes

variable (cfg : AmrCfg) (cbR : Nat → Nat → Nat → Nat)

theorem refineGo_zero (m : Mesh) (g : Nat) : refineGo cfg cbR 0 m g = (false, m) := by
  unfold refineGo
  rfl

theorem refineGo_absent (fuel : Nat) (m : Mesh) (g : Nat) (hg : m g = none) :
    refineGo cfg cbR (fuel + 1) m g = (false, m) := by
  unfold refineGo
  rw [if_pos (by rw [hg]; rfl)]

theorem refineGo_max (fuel : Nat) (m : Mesh) (g : Nat) (hpres : (m g).isSome)
    (hlev : (cfg.getIndices g).1 = cfg.refLevelMaxAllowed) :
    refineGo cfg cbR (fuel + 1) m g = (false, m) := by
  unfold refineGo
  rw [if_neg (isNone_ne_true_of_isSome hpres)]
  show (if (cfg.getIndices g).1 = cfg.refLevelMaxAllowed then (false, m)
    else (true, refineCascade cfg cbR fuel
      (refineInserted cfg cbR m g) (cfg.getNeighbors g))) = _
  rw [if_pos hlev]

theorem refineGo_succ_shape (fuel : Nat) (m : Mesh) (g : Nat) (hpres : (m g).isSome)
    (hlev : (cfg.getIndices g).1 ≠ cfg.refLevelMaxAllowed) :
    refineGo cfg cbR (fuel + 1) m g =
      (true, refineCascade cfg cbR fuel (refineInserted cfg cbR m g)
        (cfg.getNeighbors g)) := by
  unfold refineGo
  rw [if_neg (isNone_ne_true_of_isSome hpres)]
  show (if (cfg.getIndices g).1 = cfg.refLevelMaxAllowed then (false, m)
    else (true, refineCascade cfg cbR fuel
      (refineInserted cfg cbR m g) (cfg.getNeighbors g))) = _
  rw [if_neg hlev]

theorem refineCascade_nil (fuel : Nat) (m : Mesh) :
    refineCascade cfg cbR fuel m [] = m := by
  unfold refineCascade
  rfl

theorem refineCascade_cons (fuel : Nat) (m : Mesh) (n : Nat) (rest : List Nat) :
    refineCascade cfg cbR fuel m (n :: rest) =
      if cfg.getParent n = n then refineCascade cfg cbR fuel m rest
      else if (m (cfg.getParent n)).isSome then
        refineCascade cfg cbR fuel (refineGo cfg cbR fuel m (cfg.getParent n)).2 rest
      else refineCascade cfg cbR fuel m rest := by
  conv_lhs => unfold refineCascade

/-- getParent of a level-0 block is the block itself. -/
theorem getParent_level0 (g : Nat) (hl : (cfg.getIndices g).1 = 0) :
    cfg.getParent g = g := by
  unfold AmrCfg.getParent
  rw [if_pos hl]

/-- getParent of a valid block above level 0: formula and bounds. -/
theorem parent_of_valid (h : cfg.Ok) {ln i2 j2 k2 : Nat}
    (hln : ln ≤ cfg.refLevelMaxAllowed) (hi2 : i2 < cfg.Nx ln)
    (hj2 : j2 < cfg.Ny ln) (hk2 : k2 < cfg.Nz ln) (hln0 : 1 ≤ ln) :
    cfg.getParent (cfg.getGlobalID ln i2 j2 k2) =
      cfg.getGlobalID (ln - 1) (i2 / 2) (j2 / 2) (k2 / 2) ∧
    i2 / 2 < cfg.Nx (ln - 1) ∧ j2 / 2 < cfg.Ny (ln - 1) ∧ k2 / 2 < cfg.Nz (ln - 1) := by
  have htn := getIndices_getGlobalID cfg h hln hi2 hj2 hk2
  have hl1 : ln - 1 + 1 = ln := by omega
  constructor
  · unfold AmrCfg.getParent
    rw [htn]
    simp only []
    rw [if_neg (by omega)]
  · have hx2 : cfg.Nx ln = 2 * cfg.Nx (ln - 1) := by
      calc cfg.Nx ln = cfg.Nx (ln - 1 + 1) := by rw [hl1]
        _ = 2 * cfg.Nx (ln - 1) := by unfold AmrCfg.Nx; rw [pow_succ]; ring
    have hy2 : cfg.Ny ln = 2 * cfg.Ny (ln - 1) := by
      calc cfg.Ny ln = cfg.Ny (ln - 1 + 1) := by rw [hl1]
        _ = 2 * cfg.Ny (ln - 1) := by unfold AmrCfg.Ny; rw [pow_succ]; ring
    have hz2 : cfg.Nz ln = 2 * cfg.Nz (ln - 1) := by
      calc cfg.Nz ln = cfg.Nz (ln - 1 + 1) := by rw [hl1]
        _ = 2 * cfg.Nz (ln - 1) := by unfold AmrCfg.Nz; rw [pow_succ]; ring
    omega

end C2Shapes

/-! ## The refine effect bounds, by induction on the fuel -/

section C2Induction

variable (cfg : AmrCfg) (cbR : Nat → Nat → Nat → Nat)

/-- Full specification of one refineGo call: validity and no-overlap are
preserved; ids more than one level below the target's level are wholly
untouched; present ids at or below the target's level (other than the
target) keep their entry; and on a present sub-maximal target with fuel the
call returns true with all eight children present. -/
def GoSpec (fuel : Nat) : Prop :=
  ∀ m g, ValidMesh cfg m → WFMesh cfg m →
    ValidMesh cfg (refineGo cfg cbR fuel m g).2 ∧
    WFMesh cfg (refineGo cfg cbR fuel m g).2 ∧
    (∀ x, cfg.levelOf g + 1 < cfg.levelOf x → (refineGo cfg cbR fuel m g).2 x = m x) ∧
    (∀ x, (m x).isSome → cfg.levelOf g ≤ cfg.levelOf x → x ≠ g →
      (refineGo cfg cbR fuel m g).2 x = m x) ∧
    ((m g).isSome → cfg.levelOf g ≠ cfg.refLevelMaxAllowed → 1 ≤ fuel →
      (refineGo cfg cbR fuel m g).1 = true ∧
      ∀ c ∈ cfg.getChildren g, ((refineGo cfg cbR fuel m g).2 c).isSome)

/-- Specification of the balance loop over a list of valid ids of level at
most the bound: validity and no-overlap are preserved, ids strictly above
the bound are untouched, and present ids at or above the bound keep their
entry. -/
theorem cascadeSpec (fuel : Nat) (hgo : GoSpec cfg cbR fuel) (h : cfg.Ok) :
    ∀ (ns : List Nat) (m : Mesh) (lv : Nat), ValidMesh cfg m → WFMesh cfg m →
    (∀ n ∈ ns, ∃ ln i2 j2 k2, ln ≤ lv ∧ ln ≤ cfg.refLevelMaxAllowed ∧
      i2 < cfg.Nx ln ∧ j2 < cfg.Ny ln ∧ k2 < cfg.Nz ln ∧
      n = cfg.getGlobalID ln i2 j2 k2) →
    ValidMesh cfg (refineCascade cfg cbR fuel m ns) ∧
    WFMesh cfg (refineCascade cfg cbR fuel m ns) ∧
    (∀ x, lv < cfg.levelOf x → refineCascade cfg cbR fuel m ns x = m x) ∧
    (∀ x, (m x).isSome → lv ≤ cfg.levelOf x → refineCascade cfg cbR fuel m ns x = m x) := by
  intro ns
  induction ns with
  | nil =>
    intro m lv hV hWF _
    rw [refineCascade_nil]
    exact ⟨hV, hWF, fun _ _ => rfl, fun _ _ _ => rfl⟩
  | cons n rest ih =>
    intro m lv hV hWF hns
    rw [refineCascade_cons]
    by_cases hpn : cfg.getParent n = n
    · rw [if_pos hpn]
      exact ih m lv hV hWF fun x hx => hns x (by simp [hx])
    · rw [if_neg hpn]
      obtain ⟨ln, i2, j2, k2, hlnlv, hln, hi2, hj2, hk2, rfl⟩ := hns n (by simp)
      have htn := getIndices_getGlobalID cfg h hln hi2 hj2 hk2
      have hln0 : 1 ≤ ln := by
        by_contra hc
        have h0 : ln = 0 := by omega
        apply hpn
        apply getParent_level0
        rw [htn, h0]
      obtain ⟨hpeq, hb1, hb2, hb3⟩ := parent_of_valid cfg h hln hi2 hj2 hk2 hln0
      have hlevq : cfg.levelOf (cfg.getParent (cfg.getGlobalID ln i2 j2 k2)) = ln - 1 := by
        rw [hpeq]
        exact levelOf_getGlobalID cfg h (by omega) hb1 hb2 hb3
      by_cases hq : (m (cfg.getParent (cfg.getGlobalID ln i2 j2 k2))).isSome
      · rw [if_pos hq]
        obtain ⟨hV2, hWF2, hE1, hE2, _⟩ :=
          hgo m (cfg.getParent (cfg.getGlobalID ln i2 j2 k2)) hV hWF
        obtain ⟨hV3, hWF3, hE1r, hE2r⟩ := ih _ lv hV2 hWF2 (by
          intro x hx
          exact hns x (by simp [hx]))
        refine ⟨hV3, hWF3, ?_, ?_⟩
        · intro x hx
          rw [hE1r x hx]
          apply hE1
          omega
        · intro x hx hlx
          have hxq : x ≠ cfg.getParent (cfg.getGlobalID ln i2 j2 k2) := by
            intro he
            rw [he, hlevq] at hlx
            omega
          have hstep := hE2 x hx (by omega) hxq
          rw [hE2r x (by rw [hstep]; exact hx) hlx, hstep]
      · rw [if_neg (by rw [Option.not_isSome_iff_eq_none] at hq; rw [hq]; simp)]
        exact ih m lv hV hWF fun x hx => hns x (by simp [hx])

/-- Levels of the refine keys of a valid sub-maximal block. -/
theorem refineKeys_level (h : cfg.Ok) {l i j k : Nat}
    (hlmax : l < cfg.refLevelMaxAllowed)
    (hi : i < cfg.Nx l) (hj : j < cfg.Ny l) (hk : k < cfg.Nz l) :
    ∀ c ∈ cfg.refineKeys (cfg.getGlobalID l i j k), cfg.levelOf c = l + 1 := by
  intro c hc
  obtain ⟨a, b, d, ha, hb, hd, rfl⟩ := refineKeys_mem cfg h hlmax hi hj hk c hc
  obtain ⟨q1, q2, q3⟩ := child_bounds cfg h hi hj hk ha hb hd
  exact levelOf_getGlobalID cfg h (by omega) q1 q2 q3

theorem goSpec_all (h : cfg.Ok) : ∀ fuel, GoSpec cfg cbR fuel := by
  intro fuel
  induction fuel with
  | zero =>
    intro m g hV hWF
    rw [refineGo_zero]
    exact ⟨hV, hWF, fun _ _ => rfl, fun _ _ _ _ => rfl, fun _ _ hf => absurd hf (by omega)⟩
  | succ fl ih =>
    intro m g hV hWF
    by_cases hpres : (m g).isSome
    · obtain ⟨l, i, j, k, hl, hi, hj, hk, rfl⟩ := hV g hpres
      have ht := getIndices_getGlobalID cfg h hl hi hj hk
      have hlevg : cfg.levelOf (cfg.getGlobalID l i j k) = l :=
        levelOf_getGlobalID cfg h hl hi hj hk
      by_cases hmax : l = cfg.refLevelMaxAllowed
      · rw [refineGo_max cfg cbR fl m _ hpres (by rw [ht]; simp [hmax])]
        refine ⟨hV, hWF, fun _ _ => rfl, fun _ _ _ _ => rfl, ?_⟩
        intro _ hne _
        rw [hlevg] at hne
        exact absurd hmax hne
      · have hlmax : l < cfg.refLevelMaxAllowed := by omega
        have hshape := refineGo_succ_shape cfg cbR fl m _ hpres (by rw [ht]; simp [hmax])
        have hs2 : (refineGo cfg cbR (fl + 1) m (cfg.getGlobalID l i j k)).2 =
            refineCascade cfg cbR fl
              (refineInserted cfg cbR m (cfg.getGlobalID l i j k))
              (cfg.getNeighbors (cfg.getGlobalID l i j k)) := by rw [hshape]
        have hs1 : (refineGo cfg cbR (fl + 1) m (cfg.getGlobalID l i j k)).1 = true := by
          rw [hshape]
        rw [hs2]
        obtain ⟨hV9, hWF9⟩ :=
          refineInserted_V_WF cfg cbR h m hlmax hi hj hk hV hWF hpres
        have hklev := refineKeys_level cfg h hlmax hi hj hk
        have hguard : ¬cfg.refLevelMaxAllowed <
            (cfg.getIndices (cfg.getGlobalID l i j k)).1 + 1 := by
          rw [ht]; simp; omega
        have hkeys := refineKeys_eq_getChildren cfg _ hguard
        have hns : ∀ n ∈ cfg.getNeighbors (cfg.getGlobalID l i j k),
            ∃ ln i2 j2 k2, ln ≤ l ∧ ln ≤ cfg.refLevelMaxAllowed ∧
              i2 < cfg.Nx ln ∧ j2 < cfg.Ny ln ∧ k2 < cfg.Nz ln ∧
              n = cfg.getGlobalID ln i2 j2 k2 := by
          intro n hn
          obtain ⟨i2, j2, k2, hi2, hj2, hk2, rfl⟩ :=
            getNeighbors_mem_valid cfg h hl hi hj hk n hn
          exact ⟨l, i2, j2, k2, le_refl l, hl, hi2, hj2, hk2, rfl⟩
        obtain ⟨hVc, hWFc, hE1c, hE2c⟩ := cascadeSpec cfg cbR fl ih h
          (cfg.getNeighbors (cfg.getGlobalID l i j k))
          (refineInserted cfg cbR m (cfg.getGlobalID l i j k)) l hV9 hWF9 hns
        refine ⟨hVc, hWFc, ?_, ?_, ?_⟩
        · -- untouched above level l+1
          intro x hx
          rw [hlevg] at hx
          have hxg : x ≠ cfg.getGlobalID l i j k := by
            intro he
            rw [he, hlevg] at hx
            omega
          have hxk : x ∉ cfg.refineKeys (cfg.getGlobalID l i j k) := by
            intro hmem
            have := hklev x hmem
            omega
          rw [hE1c x (by omega)]
          exact refineInserted_other cfg cbR m _ x hxg hxk
        · -- present ids at level >= l, other than the target, keep entries
          intro x hx hlx hxg
          rw [hlevg] at hlx
          have h9 := refineInserted_present cfg cbR m _ x hxg hx
          rw [hE2c x (by rw [h9]; exact hx) (by omega), h9]
        · -- success: children present
          intro _ _ _
          refine ⟨hs1, ?_⟩
          intro c hc
          have hck : c ∈ cfg.refineKeys (cfg.getGlobalID l i j k) := by
            rw [hkeys]; exact hc
          have h9 := refineInserted_child cfg cbR m _ c hck
          have hlc := hklev c hck
          rw [hE2c c h9 (by omega)]
          exact h9
    · rw [Option.not_isSome_iff_eq_none] at hpres
      rw [refineGo_absent cfg cbR fl m g hpres]
      refine ⟨hV, hWF, fun _ _ => rfl, fun _ _ _ _ => rfl, ?_⟩
      intro hsome
      rw [hpres] at hsome
      cases hsome

end C2Induction

/-! ## The cascade refines a coarser block whose parent address is hit -/

section C2Cascade

variable (cfg : AmrCfg) (cbR : Nat → Nat → Nat → Nat)

/-- When the balance loop runs over level-(lv+1) ids and one of them has the
valid level-lv block b as its parent address, then after the loop all eight
children of b are present — either the loop refined b, or b had already been
replaced by its children (which the loop preserves). -/
theorem cascade_children_present (fuel lv : Nat) (hgo : GoSpec cfg cbR fuel)
    (h : cfg.Ok) (hf : 1 ≤ fuel) {p1 p2 p3 : Nat}
    (hlvmax : lv < cfg.refLevelMaxAllowed)
    (hp1 : p1 < cfg.Nx lv) (hp2 : p2 < cfg.Ny lv) (hp3 : p3 < cfg.Nz lv) :
    ∀ (ns : List Nat) (m : Mesh), ValidMesh cfg m → WFMesh cfg m →
      (∀ n ∈ ns, ∃ i2 j2 k2, i2 < cfg.Nx (lv + 1) ∧ j2 < cfg.Ny (lv + 1) ∧
        k2 < cfg.Nz (lv + 1) ∧ n = cfg.getGlobalID (lv + 1) i2 j2 k2) →
      ((m (cfg.getGlobalID lv p1 p2 p3)).isSome ∨
        ∀ c ∈ cfg.getChildren (cfg.getGlobalID lv p1 p2 p3), (m c).isSome) →
      (∃ n ∈ ns, cfg.getParent n = cfg.getGlobalID lv p1 p2 p3) →
      ∀ c ∈ cfg.getChildren (cfg.getGlobalID lv p1 p2 p3),
        ((refineCascade cfg cbR fuel m ns) c).isSome := by
  have hlvle : lv ≤ cfg.refLevelMaxAllowed := by omega
  have hln1 : lv + 1 ≤ cfg.refLevelMaxAllowed := by omega
  have hlevb : cfg.levelOf (cfg.getGlobalID lv p1 p2 p3) = lv :=
    levelOf_getGlobalID cfg h hlvle hp1 hp2 hp3
  have htb := getIndices_getGlobalID cfg h hlvle hp1 hp2 hp3
  have hguard : ¬cfg.refLevelMaxAllowed <
      (cfg.getIndices (cfg.getGlobalID lv p1 p2 p3)).1 + 1 := by
    rw [htb]; simp; omega
  have hkeys := refineKeys_eq_getChildren cfg _ hguard
  have hclev : ∀ c ∈ cfg.getChildren (cfg.getGlobalID lv p1 p2 p3),
      cfg.levelOf c = lv + 1 := by
    intro c hc
    exact refineKeys_level cfg h hlvmax hp1 hp2 hp3 c (by rw [hkeys]; exact hc)
  intro ns
  induction ns with
  | nil =>
    intro m _ _ _ _ hw
    obtain ⟨n, hn, _⟩ := hw
    simp at hn
  | cons n0 rest ih =>
    intro m hV hWF hns hJ hw
    rw [refineCascade_cons]
    obtain ⟨i2, j2, k2, hi2, hj2, hk2, hn0eq⟩ := hns n0 (by simp)
    subst hn0eq
    have hlevn0 : cfg.levelOf (cfg.getGlobalID (lv + 1) i2 j2 k2) = lv + 1 :=
      levelOf_getGlobalID cfg h hln1 hi2 hj2 hk2
    obtain ⟨hpeq, hq1, hq2, hq3⟩ := parent_of_valid cfg h hln1 hi2 hj2 hk2 (by omega)
    simp only [Nat.add_sub_cancel] at hpeq hq1 hq2 hq3
    have hlevq : cfg.levelOf (cfg.getParent (cfg.getGlobalID (lv + 1) i2 j2 k2)) = lv := by
      rw [hpeq]
      exact levelOf_getGlobalID cfg h hlvle hq1 hq2 hq3
    have hnsr : ∀ n ∈ rest, ∃ a1 a2 a3, a1 < cfg.Nx (lv + 1) ∧ a2 < cfg.Ny (lv + 1) ∧
        a3 < cfg.Nz (lv + 1) ∧ n = cfg.getGlobalID (lv + 1) a1 a2 a3 := by
      intro x hx
      exact hns x (by simp [hx])
    by_cases hpn : cfg.getParent (cfg.getGlobalID (lv + 1) i2 j2 k2) =
        cfg.getGlobalID (lv + 1) i2 j2 k2
    · rw [if_pos hpn]
      obtain ⟨n, hn, hpar⟩ := hw
      rw [List.mem_cons] at hn
      rcases hn with rfl | hn2
      · exfalso
        rw [hpar] at hpn
        have := hlevb
        rw [hpn, hlevn0] at this
        omega
      · exact ih m hV hWF hnsr hJ ⟨n, hn2, hpar⟩
    · rw [if_neg hpn]
      by_cases hq : (m (cfg.getParent (cfg.getGlobalID (lv + 1) i2 j2 k2))).isSome
      · rw [if_pos hq]
        obtain ⟨hV2, hWF2, _, hE2, hE4⟩ :=
          hgo m (cfg.getParent (cfg.getGlobalID (lv + 1) i2 j2 k2)) hV hWF
        by_cases hqb : cfg.getParent (cfg.getGlobalID (lv + 1) i2 j2 k2) =
            cfg.getGlobalID lv p1 p2 p3
        · -- the loop refines b at this step; its children then survive the rest
          have hch := (hE4 hq (by rw [hlevq]; omega) hf).2
          obtain ⟨_, _, _, hE2c⟩ := cascadeSpec cfg cbR fuel hgo h rest _ (lv + 1)
            hV2 hWF2 (by
              intro x hx
              obtain ⟨a1, a2, a3, b1, b2, b3, hxe⟩ := hnsr x hx
              exact ⟨lv + 1, a1, a2, a3, le_refl _, hln1, b1, b2, b3, hxe⟩)
          intro c hc
          have hc2 : c ∈ cfg.getChildren
              (cfg.getParent (cfg.getGlobalID (lv + 1) i2 j2 k2)) := by
            rw [hqb]; exact hc
          have hpr := hch c hc2
          rw [hE2c c hpr (le_of_eq (hclev c hc).symm)]
          exact hpr
        · -- a different coarser block is refined: b's state is untouched
          have hJ2 : ((refineGo cfg cbR fuel m
                (cfg.getParent (cfg.getGlobalID (lv + 1) i2 j2 k2))).2
                (cfg.getGlobalID lv p1 p2 p3)).isSome ∨
              ∀ c ∈ cfg.getChildren (cfg.getGlobalID lv p1 p2 p3),
                ((refineGo cfg cbR fuel m
                  (cfg.getParent (cfg.getGlobalID (lv + 1) i2 j2 k2))).2 c).isSome := by
            rcases hJ with hb | hcs
            · left
              rw [hE2 _ hb (by rw [hlevq, hlevb]) (fun he => hqb he.symm)]
              exact hb
            · right
              intro c hc
              have hcq : c ≠ cfg.getParent (cfg.getGlobalID (lv + 1) i2 j2 k2) := by
                intro he
                have := hclev c hc
                rw [he, hlevq] at this
                omega
              rw [hE2 c (hcs c hc) (by rw [hlevq, hclev c hc]; omega) hcq]
              exact hcs c hc
          obtain ⟨n, hn, hpar⟩ := hw
          rw [List.mem_cons] at hn
          rcases hn with rfl | hn2
          · exact absurd hpar hqb
          · exact ih _ hV2 hWF2 hnsr hJ2 ⟨n, hn2, hpar⟩
      · rw [if_neg (by rw [Option.not_isSome_iff_eq_none] at hq; rw [hq]; simp)]
        obtain ⟨n, hn, hpar⟩ := hw
        rw [List.mem_cons] at hn
        rcases hn with rfl | hn2
        · -- the parent address is absent, so the children are already there
          have hbn : ¬(m (cfg.getGlobalID lv p1 p2 p3)).isSome := by
            rw [← hpar]; exact hq
          have hcs := hJ.resolve_left hbn
          obtain ⟨_, _, _, hE2c⟩ := cascadeSpec cfg cbR fuel hgo h rest m (lv + 1)
            hV hWF (by
              intro x hx
              obtain ⟨a1, a2, a3, b1, b2, b3, hxe⟩ := hnsr x hx
              exact ⟨lv + 1, a1, a2, a3, le_refl _, hln1, b1, b2, b3, hxe⟩)
          intro c hc
          rw [hE2c c (hcs c hc) (le_of_eq (hclev c hc).symm)]
          exact hcs c hc
        · exact ih m hV hWF hnsr hJ ⟨n, hn2, hpar⟩

end C2Cascade

/-! ## Geometry: adjacency of a coarser block yields a neighbor hit -/

section C2Geometry

variable (cfg : AmrCfg)

theorem u32ofInt_natCast {n : Nat} (hn : n < U32) : u32ofInt (n : Int) = n := by
  have hn2 : n < 4294967296 := hn
  show ((n : Int) % (2 ^ 32 : Int)).toNat = n
  omega

theorem Nx_pred {L : Nat} (hL1 : 1 ≤ L) : cfg.Nx L = 2 * cfg.Nx (L - 1) := by
  calc cfg.Nx L = cfg.Nx (L - 1 + 1) := by rw [show L - 1 + 1 = L by omega]
    _ = 2 * cfg.Nx (L - 1) := by unfold AmrCfg.Nx; rw [pow_succ]; ring

theorem Ny_pred {L : Nat} (hL1 : 1 ≤ L) : cfg.Ny L = 2 * cfg.Ny (L - 1) := by
  calc cfg.Ny L = cfg.Ny (L - 1 + 1) := by rw [show L - 1 + 1 = L by omega]
    _ = 2 * cfg.Ny (L - 1) := by unfold AmrCfg.Ny; rw [pow_succ]; ring

theorem Nz_pred {L : Nat} (hL1 : 1 ≤ L) : cfg.Nz L = 2 * cfg.Nz (L - 1) := by
  calc cfg.Nz L = cfg.Nz (L - 1 + 1) := by rw [show L - 1 + 1 = L by omega]
    _ = 2 * cfg.Nz (L - 1) := by unfold AmrCfg.Nz; rw [pow_succ]; ring

theorem scaleOf_pos (l : Nat) : 0 < cfg.scaleOf l := two_pow_pos _

theorem scaleOf_pred {L : Nat} (hL1 : 1 ≤ L) (hL : L ≤ cfg.refLevelMaxAllowed) :
    cfg.scaleOf (L - 1) = 2 * cfg.scaleOf L := by
  unfold AmrCfg.scaleOf
  rw [show cfg.refLevelMaxAllowed - (L - 1) = (cfg.refLevelMaxAllowed - L) + 1 by omega,
    pow_succ]
  ring

theorem adjacent_symm {a b : Nat} (hab : Adjacent cfg a b) : Adjacent cfg b a := by
  obtain ⟨h0, h1, h2, h3, h4, h5, h6⟩ := hab
  exact ⟨fun he => h0 he.symm, h2, h1, h4, h3, h6, h5⟩

/-- One axis of the witness construction: a coarse cell touching the fine
cell has a child cell within distance one of it. -/
theorem pick_child_coord (p i N : Nat) (hp : p < N)
    (h1 : 2 * p ≤ i + 1) (h2 : i ≤ 2 * p + 2) :
    ∃ c, c / 2 = p ∧ c < 2 * N ∧ (c + 1 = i ∨ c = i ∨ c = i + 1) := by
  by_cases hc : i ≤ 2 * p
  · exact ⟨2 * p, by omega, by omega, by omega⟩
  · exact ⟨2 * p + 1, by omega, by omega, by omega⟩

/-- Introduction rule for getNeighbors membership: an in-bounds same-level
triple at Chebyshev distance one is produced by the 3x3x3 loop. -/
theorem getNeighbors_mem_intro (h : cfg.Ok) {l i j k c1 c2 c3 : Nat}
    (hl : l ≤ cfg.refLevelMaxAllowed)
    (hc1 : c1 < cfg.Nx l) (hc2 : c2 < cfg.Ny l) (hc3 : c3 < cfg.Nz l)
    (hd1 : c1 + 1 = i ∨ c1 = i ∨ c1 = i + 1)
    (hd2 : c2 + 1 = j ∨ c2 = j ∨ c2 = j + 1)
    (hd3 : c3 + 1 = k ∨ c3 = k ∨ c3 = k + 1)
    (hne : ¬(c1 = i ∧ c2 = j ∧ c3 = k))
    (hi : i < cfg.Nx l) (hj : j < cfg.Ny l) (hk : k < cfg.Nz l) :
    cfg.getGlobalID l c1 c2 c3 ∈ cfg.getNeighbors (cfg.getGlobalID l i j k) := by
  have ht := getIndices_getGlobalID cfg h hl hi hj hk
  have hU1 : c1 < U32 :=
    lt_of_lt_of_le hc1 (le_of_lt (lt_of_le_of_lt (Nx_le_NNN cfg h l) (NNN_lt cfg h hl)))
  have hU2 : c2 < U32 :=
    lt_of_lt_of_le hc2 (le_of_lt (lt_of_le_of_lt (Ny_le_NNN cfg h l) (NNN_lt cfg h hl)))
  have hU3 : c3 < U32 :=
    lt_of_lt_of_le hc3 (le_of_lt (lt_of_le_of_lt (Nz_le_NNN cfg h l) (NNN_lt cfg h hl)))
  obtain ⟨koff, hkm, hke⟩ : ∃ t ∈ AmrCfg.offs3, (k : Int) + t = (c3 : Int) := by
    rcases hd3 with hd | hd | hd
    · exact ⟨-1, by simp [AmrCfg.offs3], by omega⟩
    · exact ⟨0, by simp [AmrCfg.offs3], by omega⟩
    · exact ⟨1, by simp [AmrCfg.offs3], by omega⟩
  obtain ⟨joff, hjm, hje⟩ : ∃ t ∈ AmrCfg.offs3, (j : Int) + t = (c2 : Int) := by
    rcases hd2 with hd | hd | hd
    · exact ⟨-1, by simp [AmrCfg.offs3], by omega⟩
    · exact ⟨0, by simp [AmrCfg.offs3], by omega⟩
    · exact ⟨1, by simp [AmrCfg.offs3], by omega⟩
  obtain ⟨ioff, him, hie⟩ : ∃ t ∈ AmrCfg.offs3, (i : Int) + t = (c1 : Int) := by
    rcases hd1 with hd | hd | hd
    · exact ⟨-1, by simp [AmrCfg.offs3], by omega⟩
    · exact ⟨0, by simp [AmrCfg.offs3], by omega⟩
    · exact ⟨1, by simp [AmrCfg.offs3], by omega⟩
  have hu3 : u32ofInt ((k : Int) + koff) = c3 := by
    rw [hke]; exact u32ofInt_natCast hU3
  have hu2 : u32ofInt ((j : Int) + joff) = c2 := by
    rw [hje]; exact u32ofInt_natCast hU2
  have hu1 : u32ofInt ((i : Int) + ioff) = c1 := by
    rw [hie]; exact u32ofInt_natCast hU1
  unfold AmrCfg.getNeighbors
  rw [ht]
  simp only [List.mem_flatMap]
  refine ⟨koff, hkm, ?_⟩
  rw [hu3, if_neg (not_le.mpr hc3)]
  simp only [List.mem_flatMap]
  refine ⟨joff, hjm, ?_⟩
  rw [hu2, if_neg (not_le.mpr hc2)]
  simp only [List.mem_flatMap]
  refine ⟨ioff, him, ?_⟩
  rw [hu1, if_neg (not_le.mpr hc1)]
  rw [if_neg (by
    rintro ⟨hz1, hz2, hz3⟩
    exact hne ⟨by omega, by omega, by omega⟩)]
  simp

/-- A present coarser block geometrically adjacent to a valid block, other
than the block's own parent cell, is the parent of one of the block's
neighbors. -/
theorem neighbor_witness (h : cfg.Ok) {L i j k p1 p2 p3 : Nat}
    (hL : L ≤ cfg.refLevelMaxAllowed) (hL1 : 1 ≤ L)
    (hi : i < cfg.Nx L) (hj : j < cfg.Ny L) (hk : k < cfg.Nz L)
    (hp1 : p1 < cfg.Nx (L - 1)) (hp2 : p2 < cfg.Ny (L - 1)) (hp3 : p3 < cfg.Nz (L - 1))
    (hadj : Adjacent cfg (cfg.getGlobalID (L - 1) p1 p2 p3) (cfg.getGlobalID L i j k))
    (hnotpar : ¬(p1 = i / 2 ∧ p2 = j / 2 ∧ p3 = k / 2)) :
    ∃ n ∈ cfg.getNeighbors (cfg.getGlobalID L i j k),
      cfg.getParent n = cfg.getGlobalID (L - 1) p1 p2 p3 := by
  have hLp : L - 1 ≤ cfg.refLevelMaxAllowed := by omega
  have htg := getIndices_getGlobalID cfg h hL hi hj hk
  have htb := getIndices_getGlobalID cfg h hLp hp1 hp2 hp3
  have hs := scaleOf_pos cfg L
  have hsp := scaleOf_pred cfg hL1 hL
  obtain ⟨_, h1, h2, h3, h4, h5, h6⟩ := hadj
  unfold AmrCfg.levelOf at h1 h2 h3 h4 h5 h6
  rw [htg, htb] at h1 h2 h3 h4 h5 h6
  simp only [] at h1 h2 h3 h4 h5 h6
  rw [hsp] at h1 h2 h3 h4 h5 h6
  have hb1 : 2 * p1 ≤ i + 1 := by
    have hm : (2 * p1) * cfg.scaleOf L ≤ (i + 1) * cfg.scaleOf L := by
      calc (2 * p1) * cfg.scaleOf L = p1 * (2 * cfg.scaleOf L) := by ring
        _ ≤ (i + 1) * cfg.scaleOf L := h1
    exact Nat.le_of_mul_le_mul_right hm hs
  have hb2 : i ≤ 2 * p1 + 2 := by
    have hm : i * cfg.scaleOf L ≤ (2 * p1 + 2) * cfg.scaleOf L := by
      calc i * cfg.scaleOf L ≤ (p1 + 1) * (2 * cfg.scaleOf L) := h2
        _ = (2 * p1 + 2) * cfg.scaleOf L := by ring
    exact Nat.le_of_mul_le_mul_right hm hs
  have hb3 : 2 * p2 ≤ j + 1 := by
    have hm : (2 * p2) * cfg.scaleOf L ≤ (j + 1) * cfg.scaleOf L := by
      calc (2 * p2) * cfg.scaleOf L = p2 * (2 * cfg.scaleOf L) := by ring
        _ ≤ (j + 1) * cfg.scaleOf L := h3
    exact Nat.le_of_mul_le_mul_right hm hs
  have hb4 : j ≤ 2 * p2 + 2 := by
    have hm : j * cfg.scaleOf L ≤ (2 * p2 + 2) * cfg.scaleOf L := by
      calc j * cfg.scaleOf L ≤ (p2 + 1) * (2 * cfg.scaleOf L) := h4
        _ = (2 * p2 + 2) * cfg.scaleOf L := by ring
    exact Nat.le_of_mul_le_mul_right hm hs
  have hb5 : 2 * p3 ≤ k + 1 := by
    have hm : (2 * p3) * cfg.scaleOf L ≤ (k + 1) * cfg.scaleOf L := by
      calc (2 * p3) * cfg.scaleOf L = p3 * (2 * cfg.scaleOf L) := by ring
        _ ≤ (k + 1) * cfg.scaleOf L := h5
    exact Nat.le_of_mul_le_mul_right hm hs
  have hb6 : k ≤ 2 * p3 + 2 := by
    have hm : k * cfg.scaleOf L ≤ (2 * p3 + 2) * cfg.scaleOf L := by
      calc k * cfg.scaleOf L ≤ (p3 + 1) * (2 * cfg.scaleOf L) := h6
        _ = (2 * p3 + 2) * cfg.scaleOf L := by ring
    exact Nat.le_of_mul_le_mul_right hm hs
  obtain ⟨c1, hc1p, hc1b, hc1d⟩ := pick_child_coord p1 i _ hp1 hb1 hb2
  obtain ⟨c2, hc2p, hc2b, hc2d⟩ := pick_child_coord p2 j _ hp2 hb3 hb4
  obtain ⟨c3, hc3p, hc3b, hc3d⟩ := pick_child_coord p3 k _ hp3 hb5 hb6
  rw [← Nx_pred cfg hL1] at hc1b
  rw [← Ny_pred cfg hL1] at hc2b
  rw [← Nz_pred cfg hL1] at hc3b
  have hne : ¬(c1 = i ∧ c2 = j ∧ c3 = k) := by
    rintro ⟨e1, e2, e3⟩
    exact hnotpar ⟨by omega, by omega, by omega⟩
  refine ⟨cfg.getGlobalID L c1 c2 c3,
    getNeighbors_mem_intro cfg h hL hc1b hc2b hc3b hc1d hc2d hc3d hne hi hj hk, ?_⟩
  obtain ⟨hpe, _, _, _⟩ := parent_of_valid cfg h hL hc1b hc2b hc3b hL1
  rw [hpe, hc1p, hc2p, hc3p]

end C2Geometry

section ClaimC2

/-- C2: whenever refine(id) returns true on a valid, non-overlapping,
2:1-balanced mesh: id is absent afterwards; its 8 children are present, one
level below id; and every pre-existing block geometrically adjacent to id
either survives with a level within one of the children's level (it sat at
id's level or one below), or sat one level above id and has been replaced
by its own 8 children, which sit exactly at id's level -- so every adjacent
block or its replacement is within one refinement level of the 8 new
children. -/
theorem C2_refine_balance (cfg : AmrCfg) (cbR : Nat → Nat → Nat → Nat)
    (m : Mesh) (g : Nat) (h : cfg.Ok)
    (hV : ValidMesh cfg m) (hWF : WFMesh cfg m) (hB : Balanced21 cfg m)
    (hres : (refine cfg cbR m g).1 = true) :
    (refine cfg cbR m g).2 g = none ∧
    (∀ c ∈ cfg.getChildren g,
      ((refine cfg cbR m g).2 c).isSome ∧ cfg.levelOf c = cfg.levelOf g + 1) ∧
    (∀ b, (m b).isSome → Adjacent cfg b g →
      (((refine cfg cbR m g).2 b).isSome ∧
        cfg.levelOf g ≤ cfg.levelOf b ∧ cfg.levelOf b ≤ cfg.levelOf g + 1) ∨
      (cfg.levelOf b + 1 = cfg.levelOf g ∧
        ∀ cb ∈ cfg.getChildren b,
          ((refine cfg cbR m g).2 cb).isSome ∧ cfg.levelOf cb = cfg.levelOf g)) := by
  have hpres : (m g).isSome := by
    by_contra hc
    rw [Option.not_isSome_iff_eq_none] at hc
    unfold refine at hres
    rw [refineGo_absent cfg cbR cfg.refLevelMaxAllowed m g hc] at hres
    simp at hres
  obtain ⟨L, i, j, k, hL, hi, hj, hk, rfl⟩ := hV g hpres
  have ht := getIndices_getGlobalID cfg h hL hi hj hk
  have hlevg : cfg.levelOf (cfg.getGlobalID L i j k) = L :=
    levelOf_getGlobalID cfg h hL hi hj hk
  have hmax : L ≠ cfg.refLevelMaxAllowed := by
    intro hc
    unfold refine at hres
    rw [refineGo_max cfg cbR cfg.refLevelMaxAllowed m _ hpres
      (by rw [ht]; simp [hc])] at hres
    simp at hres
  have hLlt : L < cfg.refLevelMaxAllowed := by omega
  have hs2 : (refine cfg cbR m (cfg.getGlobalID L i j k)).2 =
      refineCascade cfg cbR cfg.refLevelMaxAllowed
        (refineInserted cfg cbR m (cfg.getGlobalID L i j k))
        (cfg.getNeighbors (cfg.getGlobalID L i j k)) := by
    rw [refine_succ cfg cbR m _ hpres (by rw [ht]; simp [hmax])]
  rw [hs2]
  obtain ⟨hV9, hWF9⟩ := refineInserted_V_WF cfg cbR h m hLlt hi hj hk hV hWF hpres
  have hklev := refineKeys_level cfg h hLlt hi hj hk
  have hkeys := refineKeys_eq_getChildren cfg (cfg.getGlobalID L i j k)
    (show ¬cfg.refLevelMaxAllowed < (cfg.getIndices (cfg.getGlobalID L i j k)).1 + 1 by
      rw [ht]; simp; omega)
  have hgo := goSpec_all cfg cbR h cfg.refLevelMaxAllowed
  have hns : ∀ n ∈ cfg.getNeighbors (cfg.getGlobalID L i j k),
      ∃ ln i2 j2 k2, ln ≤ L ∧ ln ≤ cfg.refLevelMaxAllowed ∧ i2 < cfg.Nx ln ∧
        j2 < cfg.Ny ln ∧ k2 < cfg.Nz ln ∧ n = cfg.getGlobalID ln i2 j2 k2 := by
    intro n hn
    obtain ⟨i2, j2, k2, b1, b2, b3, he⟩ := getNeighbors_mem_valid cfg h hL hi hj hk n hn
    exact ⟨L, i2, j2, k2, le_refl L, hL, b1, b2, b3, he⟩
  obtain ⟨hVc, hWFc, hE1c, hE2c⟩ := cascadeSpec cfg cbR cfg.refLevelMaxAllowed hgo h
    (cfg.getNeighbors (cfg.getGlobalID L i j k))
    (refineInserted cfg cbR m (cfg.getGlobalID L i j k)) L hV9 hWF9 hns
  have hch : ∀ c ∈ cfg.getChildren (cfg.getGlobalID L i j k),
      ((refineCascade cfg cbR cfg.refLevelMaxAllowed
        (refineInserted cfg cbR m (cfg.getGlobalID L i j k))
        (cfg.getNeighbors (cfg.getGlobalID L i j k))) c).isSome ∧
      cfg.levelOf c = L + 1 := by
    intro c hc
    have hck : c ∈ cfg.refineKeys (cfg.getGlobalID L i j k) := by
      rw [hkeys]; exact hc
    have h9 := refineInserted_child cfg cbR m (cfg.getGlobalID L i j k) c hck
    have hlc := hklev c hck
    exact ⟨by rw [hE2c c h9 (by omega)]; exact h9, hlc⟩
  refine ⟨?_, ?_, ?_⟩
  · -- id is gone: it would be a strict ancestor of its present first child
    rw [← Option.not_isSome_iff_eq_none]
    intro hg2
    have hc0mem : cfg.getGlobalID (L + 1) (2 * i + 0) (2 * j + 0) (2 * k + 0) ∈
        cfg.getChildren (cfg.getGlobalID L i j k) := by
      rw [getChildren_eq cfg h hLlt hi hj hk]
      simp
    have hc0 := (hch _ hc0mem).1
    have hanc : StrictAnc cfg (cfg.getGlobalID L i j k)
        (cfg.getGlobalID (L + 1) (2 * i + 0) (2 * j + 0) (2 * k + 0)) :=
      strictAnc_child cfg h hLlt hi hj hk (by omega) (by omega) (by omega)
    exact hWFc _ _ hg2 hc0 hanc
  · intro c hc
    exact ⟨(hch c hc).1, by rw [hlevg]; exact (hch c hc).2⟩
  · intro b hb hadj
    have hbg : b ≠ cfg.getGlobalID L i j k := hadj.1
    have h1 := hB b (cfg.getGlobalID L i j k) hb hpres hadj
    have h2 := hB (cfg.getGlobalID L i j k) b hpres hb (adjacent_symm cfg hadj)
    rw [hlevg] at h1 h2
    obtain ⟨lb, p1, p2, p3, hlb, hp1, hp2, hp3, rfl⟩ := hV b hb
    have htb := getIndices_getGlobalID cfg h hlb hp1 hp2 hp3
    have hlevb : cfg.levelOf (cfg.getGlobalID lb p1 p2 p3) = lb :=
      levelOf_getGlobalID cfg h hlb hp1 hp2 hp3
    rw [hlevb] at h1 h2
    by_cases hcase : L ≤ lb
    · -- same level or finer: the block survives
      left
      have h9 := refineInserted_present cfg cbR m (cfg.getGlobalID L i j k)
        (cfg.getGlobalID lb p1 p2 p3) hbg hb
      refine ⟨?_, by rw [hlevg, hlevb]; omega, by rw [hlevg, hlevb]; omega⟩
      rw [hE2c _ (by rw [h9]; exact hb) (by rw [hlevb]; omega), h9]
      exact hb
    · -- one level coarser: the balance loop has refined it
      right
      have hlbL : lb + 1 = L := by omega
      subst hlbL
      refine ⟨by rw [hlevg, hlevb], ?_⟩
      have hnotpar : ¬(p1 = i / 2 ∧ p2 = j / 2 ∧ p3 = k / 2) := by
        rintro ⟨e1, e2, e3⟩
        have hanc : StrictAnc cfg (cfg.getGlobalID lb p1 p2 p3)
            (cfg.getGlobalID (lb + 1) i j k) := by
          unfold StrictAnc AmrCfg.levelOf
          rw [htb, ht]
          simp only []
          refine ⟨by omega, ?_, ?_, ?_⟩ <;>
          · rw [show lb + 1 - lb = 1 by omega, pow_one]
            omega
        exact hWF _ _ hb hpres hanc
      obtain ⟨n, hn, hpar⟩ :=
        neighbor_witness cfg h hL (by omega) hi hj hk hp1 hp2 hp3 hadj hnotpar
      have h9b := refineInserted_present cfg cbR m (cfg.getGlobalID (lb + 1) i j k)
        (cfg.getGlobalID lb p1 p2 p3) hbg hb
      have hcb := cascade_children_present cfg cbR cfg.refLevelMaxAllowed lb hgo h
        (by omega) (by omega) hp1 hp2 hp3
        (cfg.getNeighbors (cfg.getGlobalID (lb + 1) i j k))
        (refineInserted cfg cbR m (cfg.getGlobalID (lb + 1) i j k)) hV9 hWF9
        (getNeighbors_mem_valid cfg h hL hi hj hk)
        (Or.inl (by rw [h9b]; exact hb)) ⟨n, hn, hpar⟩
      have hkeysb := refineKeys_eq_getChildren cfg (cfg.getGlobalID lb p1 p2 p3)
        (show ¬cfg.refLevelMaxAllowed <
            (cfg.getIndices (cfg.getGlobalID lb p1 p2 p3)).1 + 1 by
          rw [htb]; simp; omega)
      intro cb hcb2
      have hlcb : cfg.levelOf cb = lb + 1 :=
        refineKeys_level cfg h (by omega) hp1 hp2 hp3 cb (by rw [hkeysb]; exact hcb2)
      exact ⟨hcb cb hcb2, by rw [hlevg]; exact hlcb⟩

/-- Witness parameters: a 1x1x1 base grid with two refinement levels. -/
def c2wcfg : AmrCfg := ⟨1, 1, 1, 2⟩

/-- Witness mesh: the single level-0 block, id 0. -/
def c2wmesh : Mesh := fun g => if g = 0 then some 7 else none

/-- Witness for C2: refining the root of the single-block mesh succeeds and
the conclusion holds at that concrete input. -/
theorem C2_refine_balance_witness :
    (refine c2wcfg (fun _ _ _ => 0) c2wmesh 0).2 0 = none ∧
    (∀ c ∈ c2wcfg.getChildren 0,
      ((refine c2wcfg (fun _ _ _ => 0) c2wmesh 0).2 c).isSome ∧
        c2wcfg.levelOf c = c2wcfg.levelOf 0 + 1) ∧
    (∀ b, (c2wmesh b).isSome → Adjacent c2wcfg b 0 →
      (((refine c2wcfg (fun _ _ _ => 0) c2wmesh 0).2 b).isSome ∧
        c2wcfg.levelOf 0 ≤ c2wcfg.levelOf b ∧
        c2wcfg.levelOf b ≤ c2wcfg.levelOf 0 + 1) ∨
      (c2wcfg.levelOf b + 1 = c2wcfg.levelOf 0 ∧
        ∀ cb ∈ c2wcfg.getChildren b,
          ((refine c2wcfg (fun _ _ _ => 0) c2wmesh 0).2 cb).isSome ∧
            c2wcfg.levelOf cb = c2wcfg.levelOf 0)) :=
  C2_refine_balance c2wcfg (fun _ _ _ => 0) c2wmesh 0 (by decide)
    (by
      intro x hx
      by_cases hx0 : x = 0
      · subst hx0
        exact ⟨0, 0, 0, 0, by decide, by decide, by decide, by decide, by decide⟩
      · simp [c2wmesh, hx0] at hx)
    (by
      intro p q hp hq hanc
      have hp0 : p = 0 := by
        by_contra hc
        simp [c2wmesh, hc] at hp
      have hq0 : q = 0 := by
        by_contra hc
        simp [c2wmesh, hc] at hq
      rw [hp0, hq0] at hanc
      exact absurd hanc.1 (lt_irrefl _))
    (by
      intro a b ha hb hadj
      have ha0 : a = 0 := by
        by_contra hc
        simp [c2wmesh, hc] at ha
      have hb0 : b = 0 := by
        by_contra hc
        simp [c2wmesh, hc] at hb
      exact absurd (ha0.trans hb0.symm) hadj.1)
    (by rw [refine_succ c2wcfg (fun _ _ _ => 0) c2wmesh 0 (by decide) (by decide)])

end ClaimC2

end Vlsv
